import Mathlib

/-!
Verification of the simulariumio trajectory core: the packed-buffer dimension
scanner, the buffer decoder, the type registry, the merge engine
(`append_agents`), the spatial-axis filter and the `AgentData` constructor
defaults, shallowly embedded from `simulariumio/data_objects/agent_data.py`.

Buffer scalars are modelled as rationals (`ℚ`), identifiers as integers (`ℤ`).
Python's fallible list indexing is modelled by `Option`, `int(...)` by
truncation toward zero, and `while` loops by fuel recursion with ample fuel.
-/

namespace Simularium

/-- Python `int(q)`: truncation toward zero. -/
def pyInt (q : ℚ) : ℤ :=
  if 0 ≤ q then ⌊q⌋ else ⌈q⌉

/-- Python list indexing `data[i]`: negative indices count from the end,
out-of-range indexing is an `IndexError`, modelled as `none`. -/
def pyGet (data : List ℚ) (i : ℤ) : Option ℚ :=
  if 0 ≤ i then data.get? i.toNat
  else if -i ≤ (data.length : ℤ) then data.get? (data.length - (-i).toNat)
  else none

/-- Modelled from the spec: the constants module (`V1_SPATIAL_BUFFER_STRUCT`)
is not among the given sources; §4.1 fixes the per-record field order
`[VIZ_TYPE, UNIQUE_ID, TYPE_ID, POS_X, POS_Y, POS_Z, ROT_X, ROT_Y, ROT_Z,
RADIUS, N_SUBPOINTS, SP_0_X, ...]`, so the scalar offsets are 0..10 with the
subpoint scalars starting at 11, and a record's total length in scalars is
the fixed prefix length (11) plus the `N_SUBPOINTS` value. -/
def VIZ_TYPE_INDEX : ℕ := 0

/-- Modelled from the spec: offset of `UNIQUE_ID` (§4.1). -/
def UID_INDEX : ℕ := 1

/-- Modelled from the spec: offset of `TYPE_ID` (§4.1). -/
def TID_INDEX : ℕ := 2

/-- Modelled from the spec: offset of `POS_X` (§4.1). -/
def POSX_INDEX : ℕ := 3

/-- Modelled from the spec: offset of `POS_Y` (§4.1). -/
def POSY_INDEX : ℕ := 4

/-- Modelled from the spec: offset of `POS_Z` (§4.1). -/
def POSZ_INDEX : ℕ := 5

/-- Modelled from the spec: offset of `ROT_X` (§4.1). -/
def ROTX_INDEX : ℕ := 6

/-- Modelled from the spec: offset of `ROT_Y` (§4.1). -/
def ROTY_INDEX : ℕ := 7

/-- Modelled from the spec: offset of `ROT_Z` (§4.1). -/
def ROTZ_INDEX : ℕ := 8

/-- Modelled from the spec: offset of `RADIUS` (§4.1). -/
def R_INDEX : ℕ := 9

/-- Modelled from the spec: offset of `N_SUBPOINTS` (§4.1). -/
def NSP_INDEX : ℕ := 10

/-- Modelled from the spec: offset of the first subpoint scalar (§4.1). -/
def SP_INDEX : ℕ := 11

/-- Modelled from the spec: `VALUES_PER_AGENT` such that the scanner's
per-record advance `NSP_INDEX + n_sp + (VALUES_PER_AGENT - NSP_INDEX - 1)`
equals the §4.1 record length `11 + n_sp`. -/
def VALUES_PER_AGENT : ℕ := 12

/-- The `while i < len(data)` loop of `AgentData._get_buffer_data_dimensions`
for one timestep's scalar sequence: walks record boundaries, counting agents
and tracking the running maximum subpoint point count.  State: remaining fuel,
current index `i`, `n_agents` so far, global `max_n_subpoints` so far.
Returns `none` on an `IndexError` (or fuel exhaustion, unreachable at the
supplied fuel for the buffers considered here). -/
def scanFrameLoop (data : List ℚ) : ℕ → ℤ → ℕ → ℤ → Option (ℕ × ℤ)
  | 0, _, _, _ => none
  | fuel + 1, i, nAgents, maxSp =>
    if i < (data.length : ℤ) then
      match pyGet data (i + (NSP_INDEX : ℤ)) with
      | none => none
      | some v =>
        scanFrameLoop data fuel
          (i + (NSP_INDEX : ℤ) +
            pyInt (v + ((VALUES_PER_AGENT - NSP_INDEX - 1 : ℕ) : ℚ)))
          (nAgents + 1) (max maxSp ⌊v / 3⌋)
    else some (nAgents, maxSp)

/-- Scan of one timestep's scalar sequence, starting at index 0 with ample
fuel (each successful iteration advances `i` by at least 11 on the buffers
considered here). -/
def scanFrame (data : List ℚ) (maxSp : ℤ) : Option (ℕ × ℤ) :=
  scanFrameLoop data (data.length + 1) 0 0 maxSp

/-- The outer `for t in range(total_steps)` loop of
`_get_buffer_data_dimensions`: threads the global `max_n_agents` and
`max_n_subpoints` through every timestep. -/
def scanBundle : List (List ℚ) → ℕ → ℤ → Option (ℕ × ℤ)
  | [], maxA, maxS => some (maxA, maxS)
  | d :: rest, maxA, maxS =>
    match scanFrame d maxS with
    | none => none
    | some (nA, maxS') => scanBundle rest (max maxA nA) maxS'

/-- `AgentData._get_buffer_data_dimensions`, taking the list of per-timestep
`"data"` scalar sequences of `buffer_data["spatialData"]["bundleData"]`.
Returns `(total_steps, max_n_agents, max_n_subpoints)`, or `none` where the
Python raises `IndexError`. -/
def get_buffer_data_dimensions (bundle : List (List ℚ)) :
    Option (ℕ × ℕ × ℤ) :=
  (scanBundle bundle 0 0).map (fun p => (bundle.length, p.1, p.2))

/-- One agent's record content, used to describe well-formed packed buffers:
the fixed prefix fields and the raw subpoint scalars (the `N_SUBPOINTS`
buffer value is the scalar count, 3× the number of 3D points). -/
structure AgentRecord where
  viz_type : ℚ
  unique_id : ℚ
  type_id : ℚ
  posx : ℚ
  posy : ℚ
  posz : ℚ
  rotx : ℚ
  roty : ℚ
  rotz : ℚ
  radius : ℚ
  spScalars : List ℚ
  deriving Repr, DecidableEq

/-- The §4.1 serialization of one record: the 11 fixed prefix scalars with
`N_SUBPOINTS` holding the raw subpoint scalar count, then the subpoint
scalars. -/
def encodeRecord (r : AgentRecord) : List ℚ :=
  [r.viz_type, r.unique_id, r.type_id, r.posx, r.posy, r.posz,
   r.rotx, r.roty, r.rotz, r.radius, (r.spScalars.length : ℚ)] ++ r.spScalars

/-- One timestep's packed buffer: records concatenated with no separators. -/
def encodeFrame (f : List AgentRecord) : List ℚ :=
  (f.map encodeRecord).flatten

/-- The point count of a record: its subpoint scalar count divided by 3 with
floor division. -/
def recPoints (r : AgentRecord) : ℤ :=
  (r.spScalars.length : ℤ) / 3

/-- Running maximum of record point counts, as threaded by the scanner. -/
def maxPointsFold (recs : List AgentRecord) (maxS : ℤ) : ℤ :=
  recs.foldl (fun m r => max m (recPoints r)) maxS

/-! ## Type registry (`get_type_ids_and_mapping`, `get_type_names`) -/

/-- The mutable state of `AgentData.get_type_ids_and_mapping`: the
`type_ids` dense array (a total function over `[timestep][agent]`, numpy
zero-initialized), the `type_name_mapping` dict (ID → name, insertion
order), the `type_id_mapping` dict (name → ID, insertion order), and the
`last_tid` counter. -/
structure RegState where
  ids : ℕ → ℕ → ℤ
  nameMap : List (ℤ × String)
  idMap : List (String × ℤ)
  lastTid : ℤ

/-- The loop body of `get_type_ids_and_mapping` for one `(t, n)` cell with
name `tn`: empty names are skipped; unseen names are registered (with the
existing ID at that cell, or with `last_tid` which is then incremented);
when not using existing IDs the cell of the `type_ids` array is assigned
the registered ID. -/
def regCell (useExisting : Bool) (existing : ℕ → ℕ → ℤ) (t n : ℕ)
    (tn : String) (s : RegState) : RegState :=
  if tn.length = 0 then s
  else
    let s1 :=
      if (s.idMap.lookup tn).isSome then s
      else
        let tid := if useExisting then existing t n else s.lastTid
        { s with
          idMap := s.idMap ++ [(tn, tid)],
          nameMap := s.nameMap ++ [(tid, tn)],
          lastTid := if useExisting then s.lastTid else s.lastTid + 1 }
    if useExisting then s1
    else
      { s1 with
        ids := fun a b =>
          if a = t ∧ b = n then (s1.idMap.lookup tn).getD 0 else s1.ids a b }

/-- The inner `for n in range(len(type_names[t]))` loop. -/
def regCells (useExisting : Bool) (existing : ℕ → ℕ → ℤ) (t : ℕ) :
    ℕ → List String → RegState → RegState
  | _, [], s => s
  | n, tn :: rest, s =>
    regCells useExisting existing t (n + 1) rest
      (regCell useExisting existing t n tn s)

/-- The outer `for t in range(total_steps)` loop. -/
def regRows (useExisting : Bool) (existing : ℕ → ℕ → ℤ) :
    ℕ → List (List String) → RegState → RegState
  | _, [], s => s
  | t, row :: rest, s =>
    regRows useExisting existing (t + 1) rest
      (regCells useExisting existing t 0 row s)

/-- `AgentData.get_type_ids_and_mapping(type_names, type_ids)`: returns the
`type_ids` array (the zero-initialized `[total_steps, max_agents]` array
filled in first-seen order when `existing` is `none`, the supplied array
verbatim otherwise) and the ID → name table built from the observed
`(name, id)` pairs. -/
def get_type_ids_and_mapping (type_names : List (List String))
    (existing : Option (ℕ → ℕ → ℤ)) : (ℕ → ℕ → ℤ) × List (ℤ × String) :=
  let fin := regRows existing.isSome (existing.getD fun _ _ => 0) 0 type_names
    { ids := existing.getD fun _ _ => 0, nameMap := [], idMap := [],
      lastTid := 0 }
  (fin.ids, fin.nameMap)

/-- The inner `for n in range(len(type_ids[t]))` loop of
`AgentData.get_type_names`: appends the looked-up name of every slot; a
missing table entry is a `KeyError`, modelled as `none`. -/
def lookupRow (type_mapping : List (ℤ × String)) :
    List ℤ → Option (List String)
  | [] => some []
  | tid :: rest =>
    match type_mapping.lookup tid, lookupRow type_mapping rest with
    | some nm, some names => some (nm :: names)
    | _, _ => none

/-- `AgentData.get_type_names(type_ids, type_mapping)`: for every slot of
every row, look the ID up in the table. -/
def get_type_names (type_ids : List (List ℤ))
    (type_mapping : List (ℤ × String)) : Option (List (List String)) :=
  match type_ids with
  | [] => some []
  | row :: rest =>
    match lookupRow type_mapping row, get_type_names rest type_mapping with
    | some names, some res => some (names :: res)
    | _, _ => none

/-! ## The trajectory model and the merge engine -/

/-- The dense `AgentData` model.  2D arrays are total functions over
`[timestep][agent]`; `steps` is `times.size` (also the row count of every
per-timestep array of an invariant-satisfying instance) and `agentWidth`
the shared agent-axis size of the dense 2D arrays; `spWidth` the subpoint
capacity of `subpoints`.  `types` is the per-timestep list of type-name
lists, `type_ids` the optional dense ID array, `type_mapping` the lazily
rebuilt ID → name table. -/
structure AgentData where
  steps : ℕ
  agentWidth : ℕ
  spWidth : ℕ
  times : ℕ → ℚ
  n_agents : ℕ → ℕ
  viz_types : ℕ → ℕ → ℚ
  unique_ids : ℕ → ℕ → ℤ
  types : List (List String)
  positions : ℕ → ℕ → Fin 3 → ℚ
  rotations : ℕ → ℕ → Fin 3 → ℚ
  radii : ℕ → ℕ → ℚ
  n_subpoints : ℕ → ℕ → ℤ
  subpoints : ℕ → ℕ → ℕ → Fin 3 → ℚ
  draw_fiber_points : Bool
  type_ids : Option (ℕ → ℕ → ℤ)
  type_mapping : Option (List (ℤ × String))

/-- Modelled from the spec: the exceptions module is not among the given
sources; §7's `TimestepMismatchError` reports both operands' timestep
counts, exactly the two counts interpolated into the raised message. -/
structure TimestepMismatchError where
  new_steps : ℕ
  existing_steps : ℕ
  deriving Repr, DecidableEq

/-- `np.amax` over the first `k` entries of a per-timestep counter array. -/
def amax (f : ℕ → ℕ) (k : ℕ) : ℕ :=
  (List.range k).foldl (fun m t => max m (f t)) 0

/-- All entries of an `[steps, agentWidth]` dense `unique_ids` array, as a
list; `np.unique` returns these sorted and deduplicated, which is
membership-equivalent. -/
def uidEntries (a : AgentData) : List ℤ :=
  ((List.range a.steps).map fun t =>
    (List.range a.agentWidth).map (a.unique_ids t)).flatten

/-- The `while uid in used_uids: uid += 1` probe, with explicit fuel. -/
def probe (used : List ℤ) : ℤ → ℕ → ℤ
  | x, 0 => x
  | x, fuel + 1 => if x ∈ used then probe used (x + 1) fuel else x

/-- The merge loop's unique-ID remap state: the `new_uids` memo dict
(most recent first) and the `used_uids` list (append at end). -/
structure RemapState where
  memo : List (ℤ × ℤ)
  used : List ℤ

/-- Remapping of one incoming raw unique ID: a memoized raw value reuses
its remap; otherwise the raw value is probed upward past `used_uids`,
memoized, and appended to `used_uids`. -/
def remapStep (s : RemapState) (raw : ℤ) : RemapState × ℤ :=
  match s.memo.lookup raw with
  | some u => (s, u)
  | none =>
    let u := probe s.used raw (s.used.length + 1)
    (⟨(raw, u) :: s.memo, s.used ++ [u]⟩, u)

/-- Remapping of one timestep's incoming raw unique IDs, in agent order. -/
def remapRow (s : RemapState) : List ℤ → RemapState × List ℤ
  | [] => (s, [])
  | r :: rest =>
    let (s1, u) := remapStep s r
    let (s2, us) := remapRow s1 rest
    (s2, u :: us)

/-- Remapping across all timesteps, timestep 0 first. -/
def remapRows (s : RemapState) : List (List ℤ) → RemapState × List (List ℤ)
  | [] => (s, [])
  | row :: rest =>
    let (s1, us) := remapRow s row
    let (s2, rows) := remapRows s1 rest
    (s2, us :: rows)

/-- The first `n_agents[t]` raw unique IDs of timestep `t`. -/
def uidRow (d : AgentData) (t : ℕ) : List ℤ :=
  (List.range (d.n_agents t)).map (d.unique_ids t)

/-- The incoming operand's per-timestep raw unique-ID rows, for the first
`steps` timesteps. -/
def uidRowsUpTo (d : AgentData) (steps : ℕ) : List (List ℤ) :=
  (List.range steps).map (uidRow d)

/-- The first `n_agents[t]` type IDs of timestep `t`, from a dense array. -/
def tidRow (d : AgentData) (tids : ℕ → ℕ → ℤ) (t : ℕ) : List ℤ :=
  (List.range (d.n_agents t)).map (tids t)

/-- The first `n_agents[t]` type names of timestep `t` (Python
`self.types[t][n]`, with the model's out-of-range default `""`). -/
def typeRow (d : AgentData) (t : ℕ) : List String :=
  (List.range (d.n_agents t)).map fun n => (d.types.getD t []).getD n ""

/-- Reading of a freshly zero-allocated `[steps, max_agents]` array whose
row `t` was filled left-to-right with the entries of `rows[t]`. -/
def rowsArr (rows : List (List ℤ)) : ℕ → ℕ → ℤ :=
  fun t n => (rows.getD t []).getD n 0

/-- `AgentData.append_agents(self, new_agents)`, embedded with explicit
state passing: returns the raised error (if any) together with the final
states of `self` and `new_agents` (the code mutates `new_agents.type_ids`
when it was absent).  On a timestep mismatch the error is raised before
any field of either operand is assigned, so both come back unchanged.
The concatenated dense arrays (`viz_types`, `positions`, `rotations`,
`radii`, `n_subpoints`, `subpoints`) place the incoming block at agent
offset `self.agentWidth`; the freshly allocated `unique_ids`/`type_ids`
arrays and `types` rows pack base then incoming valid agents from offset
`0`, mirroring the source's two inner copy loops. -/
def append_agents (a b : AgentData) :
    Except TimestepMismatchError Unit × AgentData × AgentData :=
  let total_steps := a.steps
  let new_total_steps := b.steps
  if new_total_steps ≠ total_steps then
    (.error ⟨new_total_steps, total_steps⟩, a, b)
  else
    let max_agents := amax a.n_agents a.steps + amax b.n_agents b.steps
    let aTids := match a.type_ids with
      | some f => f
      | none => (get_type_ids_and_mapping a.types none).1
    let bTids := match b.type_ids with
      | some f => f
      | none => (get_type_ids_and_mapping b.types none).1
    let used_uids := uidEntries a
    let (_, newRows) := remapRows ⟨[], used_uids⟩ (uidRowsUpTo b total_steps)
    let mergedUidRows :=
      (List.range total_steps).map fun t => uidRow a t ++ newRows.getD t []
    let mergedTidRows :=
      (List.range total_steps).map fun t => tidRow a aTids t ++ tidRow b bTids t
    let mergedTypes :=
      (List.range total_steps).map fun t => typeRow a t ++ typeRow b t
    let a' : AgentData :=
      { a with
        agentWidth := max_agents,
        n_agents := fun t => a.n_agents t + b.n_agents t,
        viz_types := fun t n =>
          if n < a.agentWidth then a.viz_types t n
          else b.viz_types t (n - a.agentWidth),
        positions := fun t n =>
          if n < a.agentWidth then a.positions t n
          else b.positions t (n - a.agentWidth),
        rotations := fun t n =>
          if n < a.agentWidth then a.rotations t n
          else b.rotations t (n - a.agentWidth),
        radii := fun t n =>
          if n < a.agentWidth then a.radii t n
          else b.radii t (n - a.agentWidth),
        n_subpoints := fun t n =>
          if n < a.agentWidth then a.n_subpoints t n
          else b.n_subpoints t (n - a.agentWidth),
        subpoints := fun t n =>
          if n < a.agentWidth then a.subpoints t n
          else b.subpoints t (n - a.agentWidth),
        unique_ids := rowsArr mergedUidRows,
        type_ids := some (rowsArr mergedTidRows),
        types := mergedTypes,
        type_mapping := none }
    let b' : AgentData := { b with type_ids := some bTids }
    (.ok (), a', b')

/-! ## The buffer decoder (`from_buffer_data`) -/

/-- One decoded agent slot as written by `from_buffer_data`'s record walk:
the prefix fields, the stored point count (`int(frame_data[i] / 3.0)`) and
the de-interleaved subpoint values (dense over `[point][axis]`, untouched
slots keep the allocation default `0`). -/
structure DecRecord where
  viz : ℚ
  uid : ℚ
  tid : ℚ
  pos : Fin 3 → ℚ
  rot : Fin 3 → ℚ
  radius : ℚ
  nsp : ℤ
  sp : ℕ → Fin 3 → ℚ

/-- The `for j in range(int(frame_data[i]))` subpoint de-interleave loop:
scalar `j` is written at point `p`, axis `d`, with `d` cycling `0,1,2`.
State: scalars remaining, current `j`, `p`, `d`, accumulated dense row. -/
def readSubLoop (frame : List ℚ) (i : ℤ) :
    ℕ → ℕ → ℕ → ℕ → (ℕ → Fin 3 → ℚ) → Option (ℕ → Fin 3 → ℚ)
  | 0, _, _, _, acc => some acc
  | rem + 1, j, p, d, acc =>
    match pyGet frame (i + 1 + (j : ℤ)) with
    | none => none
    | some v =>
      let acc' : ℕ → Fin 3 → ℚ := fun p' d' =>
        if p' = p ∧ (d' : ℕ) = d then v else acc p' d'
      if d + 1 > 2 then readSubLoop frame i rem (j + 1) (p + 1) 0 acc'
      else readSubLoop frame i rem (j + 1) p (d + 1) acc'

/-- The `while i + NSP_INDEX < len(frame_data)` record walk of
`from_buffer_data` for one timestep: reads the ten prefix fields, then
either skips the subpoint block (when the scanned subpoint capacity is
zero, leaving the slot's `nsp`/`sp` at their allocation defaults) or
de-interleaves `int(frame_data[i])` subpoint scalars.  Walked agents
accumulate in order; a `none` is an `IndexError`. -/
def decodeLoop (frame : List ℚ) (maxSubpoints : ℤ) :
    ℕ → ℤ → List DecRecord → Option (List DecRecord)
  | 0, _, _ => none
  | fuel + 1, i, acc =>
    if i + (NSP_INDEX : ℤ) < (frame.length : ℤ) then do
      let viz ← pyGet frame (i + (VIZ_TYPE_INDEX : ℤ))
      let uid ← pyGet frame (i + (UID_INDEX : ℤ))
      let tid ← pyGet frame (i + (TID_INDEX : ℤ))
      let px ← pyGet frame (i + (POSX_INDEX : ℤ))
      let py ← pyGet frame (i + (POSY_INDEX : ℤ))
      let pz ← pyGet frame (i + (POSZ_INDEX : ℤ))
      let rx ← pyGet frame (i + (ROTX_INDEX : ℤ))
      let ry ← pyGet frame (i + (ROTY_INDEX : ℤ))
      let rz ← pyGet frame (i + (ROTZ_INDEX : ℤ))
      let radius ← pyGet frame (i + (R_INDEX : ℤ))
      let i1 := i + (NSP_INDEX : ℤ)
      if maxSubpoints < 1 then
        decodeLoop frame maxSubpoints fuel
          (i1 + ((SP_INDEX - NSP_INDEX : ℕ) : ℤ))
          (acc ++ [{ viz, uid, tid, pos := ![px, py, pz],
                     rot := ![rx, ry, rz], radius, nsp := 0,
                     sp := fun _ _ => 0 }])
      else do
        let nspv ← pyGet frame i1
        let sp ← readSubLoop frame i1 (pyInt nspv).toNat 0 0 0 fun _ _ => 0
        decodeLoop frame maxSubpoints fuel
          (i1 + pyInt nspv + ((SP_INDEX - NSP_INDEX : ℕ) : ℤ))
          (acc ++ [{ viz, uid, tid, pos := ![px, py, pz],
                     rot := ![rx, ry, rz], radius,
                     nsp := pyInt (nspv / 3), sp }])
    else some acc

/-- The decoder's input: the `trajectoryInfo.typeMapping` table and, per
`bundleData` entry, its `time` and its packed `data` scalar sequence. -/
structure BufferData where
  typeMapping : List (ℤ × String)
  bundleTimes : List ℚ
  bundleData : List (List ℚ)

/-- `AgentData.from_buffer_data(buffer_data)`: scan dimensions, allocate
dense arrays sized `[total_steps, max_agents]` (radii default `1`,
everything else `0`), walk each timestep's records writing each field into
the next agent slot, set `n_agents[t]` to the number of records walked,
then resolve `types` through `get_type_names` against the supplied table.
Identifier scalars are truncated to integers at the point where every
consumer of the model applies Python `int(...)`. -/
def from_buffer_data (bd : BufferData) : Option AgentData := do
  let dims ← get_buffer_data_dimensions bd.bundleData
  let total_steps := dims.1
  let max_agents := dims.2.1
  let max_subpoints := dims.2.2
  let recss ← bd.bundleData.mapM fun f =>
    decodeLoop f max_subpoints (f.length + 1) 0 []
  let tidArr : ℕ → ℕ → ℤ := fun t n =>
    pyInt ((((recss.getD t []).map DecRecord.tid).getD n 0))
  let type_names ← get_type_names
    ((List.range total_steps).map fun t =>
      (List.range max_agents).map (tidArr t)) bd.typeMapping
  some
    { steps := total_steps,
      agentWidth := max_agents,
      spWidth := max_subpoints.toNat,
      times := fun t => bd.bundleTimes.getD t 0,
      n_agents := fun t => (recss.getD t []).length,
      viz_types := fun t n => ((recss.getD t []).map DecRecord.viz).getD n 0,
      unique_ids := fun t n =>
        pyInt (((recss.getD t []).map DecRecord.uid).getD n 0),
      types := type_names,
      positions := fun t n =>
        ((recss.getD t []).map DecRecord.pos).getD n fun _ => 0,
      rotations := fun t n =>
        ((recss.getD t []).map DecRecord.rot).getD n fun _ => 0,
      radii := fun t n => ((recss.getD t []).map DecRecord.radius).getD n 1,
      n_subpoints := fun t n =>
        ((recss.getD t []).map DecRecord.nsp).getD n 0,
      subpoints := fun t n =>
        ((recss.getD t []).map DecRecord.sp).getD n fun _ _ => 0,
      draw_fiber_points := false,
      type_ids := some tidArr,
      type_mapping := none }

/-! ## The spatial-axis filter -/

/-- One signed source axis of an axes mapping (`"+X"`, `"-Z"`, ...). -/
structure SignedAxis where
  neg : Bool
  axis : Fin 3
  deriving Repr, DecidableEq

/-- Sign application of a signed axis. -/
def applySign (neg : Bool) (q : ℚ) : ℚ :=
  if neg then -q else q

/-- Application of an axes mapping to one 3D vector: output axis `i` takes
the (signed) source coordinate named by the mapping. -/
def transformVec (m : Fin 3 → SignedAxis) (v : Fin 3 → ℚ) : Fin 3 → ℚ :=
  fun i => applySign (m i).neg (v (m i).axis)

/-- Modelled from the spec: `InvalidAxisMappingError`, raised for a mapping
that is not a signed permutation of exactly the three axes (§4.7). -/
structure InvalidAxisMappingError : Type where
  deriving Repr, DecidableEq

/-- Modelled from the spec: `TransformSpatialAxesFilter.apply` is not among
the given sources; per §4.7 it applies the signed permutation to every
position, rotation-axis order, and subpoint coordinate in every
timestep/agent/subpoint, leaves radii, IDs and type data untouched, and
rejects any mapping that does not use each source axis exactly once with
`InvalidAxisMappingError` before any data is touched. -/
def transform_spatial_axes (m : Fin 3 → SignedAxis) (d : AgentData) :
    Except InvalidAxisMappingError AgentData :=
  if Function.Injective (fun i => (m i).axis) then
    .ok
      { d with
        positions := fun t n => transformVec m (d.positions t n),
        rotations := fun t n => transformVec m (d.rotations t n),
        subpoints := fun t n p => transformVec m (d.subpoints t n p) }
  else .error ⟨⟩

/-! ## The `AgentData` constructor defaults -/

/-- A numpy array as the constructor-default model sees it: a shape and an
entry function (indexed by a full multi-index list). -/
structure NDArr where
  shape : List ℕ
  entry : List ℕ → ℚ

/-- `np.zeros_like(a)`: same shape, every entry `0`. -/
def zeros_like (a : NDArr) : NDArr :=
  ⟨a.shape, fun _ => 0⟩

/-- The fields assigned by `AgentData.__init__`. -/
structure InitAgentData where
  times : NDArr
  n_agents : NDArr
  viz_types : NDArr
  unique_ids : NDArr
  types : List (List String)
  positions : NDArr
  radii : NDArr
  rotations : NDArr
  n_subpoints : NDArr
  subpoints : NDArr
  draw_fiber_points : Bool
  type_ids : Option NDArr
  type_mapping : Option (List (ℤ × String))

/-- `AgentData.__init__`: optional arrays default to `None`; an absent
`rotations` becomes `np.zeros_like(positions)`, absent `n_subpoints` and
`subpoints` each become `np.zeros_like(radii)`, and `type_mapping` is
always initialized to `None`. -/
def agentDataInit (times n_agents viz_types unique_ids : NDArr)
    (types : List (List String)) (positions radii : NDArr)
    (rotations n_subpoints subpoints : Option NDArr)
    (draw_fiber_points : Bool) (type_ids : Option NDArr) : InitAgentData :=
  { times, n_agents, viz_types, unique_ids, types, positions, radii,
    rotations := rotations.getD (zeros_like positions),
    n_subpoints := n_subpoints.getD (zeros_like radii),
    subpoints := subpoints.getD (zeros_like radii),
    draw_fiber_points, type_ids, type_mapping := none }

/-! ## Specification-side notions used by the theorem statements -/

/-- The distinct elements of a scan, in first-occurrence order. -/
def scanDistinct [DecidableEq α] (l : List α) : List α :=
  l.foldl (fun acc x => if x ∈ acc then acc else acc ++ [x]) []

/-- `u` is the smallest value `≥ r` not present in `used`. -/
def IsLeastFreeFrom (used : List ℤ) (r u : ℤ) : Prop :=
  r ≤ u ∧ u ∉ used ∧ ∀ y, r ≤ y → y < u → y ∈ used

/-- The `used_uids` list is the initial pool extended by exactly the
memoized remapped values, in remap order. -/
def UsedEq (usedInit : List ℤ) (s : RemapState) : Prop :=
  s.used = usedInit ++ s.memo.reverse.map Prod.snd

/-- Every entry of an ordered memo (first-occurrence order) maps its raw
ID to the smallest value `≥` it that is absent from the initial pool and
from all earlier remapped values. -/
def MemoOrd (usedInit : List ℤ) (ord : List (ℤ × ℤ)) : Prop :=
  ∀ k, k < ord.length →
    IsLeastFreeFrom (usedInit ++ (ord.take k).map Prod.snd)
      (ord.getD k (0, 0)).1 (ord.getD k (0, 0)).2

/-- One step of the first-seen name accumulation: an empty or already-seen
name changes nothing, a new non-empty name is appended. -/
def addSeen (acc : List String) (tn : String) : List String :=
  if tn = "" ∨ tn ∈ acc then acc else acc ++ [tn]

/-- The distinct non-empty type names of a per-timestep name table, in
first-seen scan order (timestep 0 first, agent index ascending). -/
def firstSeenNames (type_names : List (List String)) : List String :=
  type_names.flatten.foldl addSeen []

/-- The name → ID pairs of a first-seen name list, IDs counting up from
`k`. -/
def idMapOf (k : ℕ) : List String → List (String × ℤ)
  | [] => []
  | tn :: rest => (tn, (k : ℤ)) :: idMapOf (k + 1) rest

/-- The ID → name pairs of a first-seen name list, IDs counting up from
`k`. -/
def nameMapOf (k : ℕ) : List String → List (ℤ × String)
  | [] => []
  | tn :: rest => ((k : ℤ), tn) :: nameMapOf (k + 1) rest

/-- The declarative type-ID assignment: an empty-name slot keeps the zero
default; a non-empty name gets the position of its first occurrence among
the distinct non-empty names. -/
def specTypeIds (type_names : List (List String)) : ℕ → ℕ → ℤ :=
  fun t n =>
    if (type_names.getD t []).getD n "" = "" then 0
    else ((firstSeenNames type_names).indexOf
      ((type_names.getD t []).getD n "") : ℤ)

/-- The declarative name table: the distinct non-empty names paired with
their IDs `0, 1, 2, ...` in first-seen order. -/
def specTable (type_names : List (List String)) : List (ℤ × String) :=
  nameMapOf 0 (firstSeenNames type_names)

/-- The position vector of a well-formed record. -/
def recPos (r : AgentRecord) : Fin 3 → ℚ :=
  ![r.posx, r.posy, r.posz]

/-- The rotation vector of a well-formed record. -/
def recRot (r : AgentRecord) : Fin 3 → ℚ :=
  ![r.rotx, r.roty, r.rotz]

/-- The dense `[point][axis]` subpoint view of a well-formed record:
scalar `3p + d` of the record's subpoint scalars, `0` past the end. -/
def recSp (r : AgentRecord) : ℕ → Fin 3 → ℚ :=
  fun p d => r.spScalars.getD (3 * p + (d : ℕ)) 0

/-- The largest per-timestep record count of a well-formed buffer. -/
def maxAgentsFold (frames : List (List AgentRecord)) : ℕ :=
  frames.foldl (fun m f => max m f.length) 0

/-- The largest per-record point count of a well-formed buffer. -/
def maxPointsBundle (frames : List (List AgentRecord)) : ℤ :=
  frames.foldl (fun m f => maxPointsFold f m) 0

/-- A minimal concrete `AgentData` (used to instantiate universally
quantified theorems): all agents are default spheres of radius 1 at the
origin; `unique_ids` and `types` rows are read off the two lists. -/
def mkSimpleAgentData (uids : List (List ℤ))
    (types : List (List String)) : AgentData :=
  { steps := uids.length,
    agentWidth := amax (fun t => (uids.getD t []).length) uids.length,
    spWidth := 0,
    times := fun _ => 0,
    n_agents := fun t => (uids.getD t []).length,
    viz_types := fun _ _ => 1000,
    unique_ids := fun t n => (uids.getD t []).getD n 0,
    types := types,
    positions := fun _ _ _ => 0,
    rotations := fun _ _ _ => 0,
    radii := fun _ _ => 1,
    n_subpoints := fun _ _ => 0,
    subpoints := fun _ _ _ _ => 0,
    draw_fiber_points := false,
    type_ids := none,
    type_mapping := none }

/-- The slot `from_buffer_data`'s walk produces for a well-formed record:
prefix fields verbatim, the point count `N_SUBPOINTS / 3` (floor), and the
de-interleaved dense subpoint view. -/
def decRecOf (r : AgentRecord) : DecRecord :=
  { viz := r.viz_type, uid := r.unique_id, tid := r.type_id,
    pos := recPos r, rot := recRot r, radius := r.radius,
    nsp := (r.spScalars.length : ℤ) / 3, sp := recSp r }

/-- An all-zero record, used as a `getD` default. -/
def dummyRec : AgentRecord :=
  ⟨0, 0, 0, 0, 0, 0, 0, 0, 0, 0, []⟩

/-- The spec's merge-identity example: base trajectory with unique IDs
`{1, 2}` at its single timestep. -/
def mergeWitnessA : AgentData :=
  mkSimpleAgentData [[1, 2]] [["A", "B"]]

/-- The spec's merge-identity example: incoming trajectory with unique
IDs `{1, 3}` at its single timestep. -/
def mergeWitnessB : AgentData :=
  mkSimpleAgentData [[1, 3]] [["A", "B"]]

/-! ## Theorems -/

/-- C10: constructing `AgentData` without the optional arrays substitutes
zero arrays shaped like existing fields — `rotations` becomes zeros shaped
like `positions`, `n_subpoints` zeros shaped like `radii`, and `subpoints`
also zeros shaped like `radii`, i.e. a 2-dimensional `[timesteps, agents]`
array rather than the documented 4-dimensional shape — and `type_mapping`
is always initialized to the unset (`None`) state. -/
theorem C10_constructor_defaults (times n_agents viz_types unique_ids : NDArr)
    (types : List (List String)) (positions radii : NDArr)
    (dfp : Bool) (tids : Option NDArr) (T A : ℕ)
    (hshape : radii.shape = [T, A]) :
    (agentDataInit times n_agents viz_types unique_ids types positions radii
        none none none dfp tids).rotations = zeros_like positions ∧
    (agentDataInit times n_agents viz_types unique_ids types positions radii
        none none none dfp tids).n_subpoints = zeros_like radii ∧
    (agentDataInit times n_agents viz_types unique_ids types positions radii
        none none none dfp tids).subpoints = zeros_like radii ∧
    (agentDataInit times n_agents viz_types unique_ids types positions radii
        none none none dfp tids).subpoints.shape = [T, A] ∧
    (agentDataInit times n_agents viz_types unique_ids types positions radii
        none none none dfp tids).subpoints.shape.length = 2 ∧
    (agentDataInit times n_agents viz_types unique_ids types positions radii
        none none none dfp tids).type_mapping = none := by
  refine ⟨rfl, rfl, rfl, ?_, ?_, rfl⟩ <;>
    simp [agentDataInit, zeros_like, hshape]

/-- Witness for C10 at a concrete `[2, 3]`-shaped `radii`. -/
theorem C10_constructor_defaults_witness :
    (⟨[2, 3], fun _ => (1 : ℚ)⟩ : NDArr).shape = [2, 3] ∧
    (agentDataInit ⟨[2], fun _ => 0⟩ ⟨[2], fun _ => 0⟩
        ⟨[2, 3], fun _ => 0⟩ ⟨[2, 3], fun _ => 0⟩ [[]]
        ⟨[2, 3, 3], fun _ => 0⟩ ⟨[2, 3], fun _ => 1⟩
        none none none false none).subpoints.shape = [2, 3] :=
  ⟨rfl,
    (C10_constructor_defaults ⟨[2], fun _ => 0⟩ ⟨[2], fun _ => 0⟩
      ⟨[2, 3], fun _ => 0⟩ ⟨[2, 3], fun _ => 0⟩ [[]]
      ⟨[2, 3, 3], fun _ => 0⟩ ⟨[2, 3], fun _ => 1⟩
      false none 2 3 rfl).2.2.2.1⟩

theorem mem_iff_getD {α : Type _} (l : List α) (d : α) (a : α) :
    a ∈ l ↔ ∃ i, i < l.length ∧ l.getD i d = a := by
  induction l with
  | nil => simp
  | cons x xs ih =>
    simp only [List.mem_cons, List.length_cons]
    constructor
    · rintro (rfl | h)
      · exact ⟨0, Nat.succ_pos _, rfl⟩
      · obtain ⟨i, hi, hv⟩ := ih.mp h
        exact ⟨i + 1, Nat.succ_lt_succ hi, by simpa using hv⟩
    · rintro ⟨i, hi, rfl⟩
      cases i with
      | zero => left; rfl
      | succ k =>
        right
        exact ih.mpr ⟨k, Nat.lt_of_succ_lt_succ hi, by simp⟩

theorem lookupRow_none_iff (m : List (ℤ × String)) (row : List ℤ) :
    lookupRow m row = none ↔ ∃ tid ∈ row, m.lookup tid = none := by
  induction row with
  | nil => simp [lookupRow]
  | cons tid rest ih =>
    cases h1 : m.lookup tid with
    | none =>
      have hL : lookupRow m (tid :: rest) = none := by
        simp [lookupRow, h1]
      rw [hL]
      constructor
      · intro _; exact ⟨tid, by simp, h1⟩
      · intro _; rfl
    | some nm =>
      cases h2 : lookupRow m rest with
      | none =>
        have hL : lookupRow m (tid :: rest) = none := by
          simp [lookupRow, h1, h2]
        rw [hL]
        constructor
        · intro _
          obtain ⟨u, hu, hlook⟩ := ih.mp h2
          exact ⟨u, List.mem_cons_of_mem _ hu, hlook⟩
        · intro _; rfl
      | some names =>
        have hL : lookupRow m (tid :: rest) = some (nm :: names) := by
          simp [lookupRow, h1, h2]
        rw [hL]
        constructor
        · intro h; cases h
        · rintro ⟨u, hu, hlook⟩
          rcases List.mem_cons.mp hu with rfl | hu'
          · rw [h1] at hlook; cases hlook
          · have : lookupRow m rest = none := ih.mpr ⟨u, hu', hlook⟩
            rw [h2] at this; cases this

theorem lookupRow_some_spec (m : List (ℤ × String)) (row : List ℤ)
    (names : List String) (h : lookupRow m row = some names) :
    names.length = row.length ∧
    ∀ n, n < row.length →
      m.lookup (row.getD n 0) = some (names.getD n "") := by
  induction row generalizing names with
  | nil =>
    simp [lookupRow] at h
    subst h; simp
  | cons tid rest ih =>
    cases h1 : m.lookup tid with
    | none => simp [lookupRow, h1] at h
    | some nm =>
      cases h2 : lookupRow m rest with
      | none => simp [lookupRow, h1, h2] at h
      | some names' =>
        simp only [lookupRow, h1, h2] at h
        obtain rfl : nm :: names' = names := by
          cases h; rfl
        obtain ⟨hl, hv⟩ := ih names' h2
        refine ⟨by simp [hl], ?_⟩
        intro n hn
        cases n with
        | zero => simpa using h1
        | succ k =>
          simp only [List.getD_cons_succ]
          exact hv k (by simpa using hn)

theorem get_type_names_none_iff (ids : List (List ℤ))
    (m : List (ℤ × String)) :
    get_type_names ids m = none ↔
      ∃ row ∈ ids, lookupRow m row = none := by
  induction ids with
  | nil => simp [get_type_names]
  | cons row rest ih =>
    cases h1 : lookupRow m row with
    | none =>
      have hL : get_type_names (row :: rest) m = none := by
        simp [get_type_names, h1]
      rw [hL]
      constructor
      · intro _; exact ⟨row, by simp, h1⟩
      · intro _; rfl
    | some names =>
      cases h2 : get_type_names rest m with
      | none =>
        have hL : get_type_names (row :: rest) m = none := by
          simp [get_type_names, h1, h2]
        rw [hL]
        constructor
        · intro _
          obtain ⟨r, hr, hl⟩ := ih.mp h2
          exact ⟨r, List.mem_cons_of_mem _ hr, hl⟩
        · intro _; rfl
      | some res =>
        have hL : get_type_names (row :: rest) m = some (names :: res) := by
          simp [get_type_names, h1, h2]
        rw [hL]
        constructor
        · intro h; cases h
        · rintro ⟨r, hr, hl⟩
          rcases List.mem_cons.mp hr with rfl | hr'
          · rw [h1] at hl; cases hl
          · have : get_type_names rest m = none := ih.mpr ⟨r, hr', hl⟩
            rw [h2] at this; cases this

theorem get_type_names_some_spec (ids : List (List ℤ))
    (m : List (ℤ × String)) (res : List (List String))
    (h : get_type_names ids m = some res) :
    res.length = ids.length ∧
    ∀ t, t < ids.length →
      lookupRow m (ids.getD t []) = some (res.getD t []) := by
  induction ids generalizing res with
  | nil =>
    simp [get_type_names] at h
    subst h; simp
  | cons row rest ih =>
    cases h1 : lookupRow m row with
    | none => simp [get_type_names, h1] at h
    | some names =>
      cases h2 : get_type_names rest m with
      | none => simp [get_type_names, h1, h2] at h
      | some res' =>
        simp only [get_type_names, h1, h2] at h
        obtain rfl : names :: res' = res := by cases h; rfl
        obtain ⟨hl, hv⟩ := ih res' h2
        refine ⟨by simp [hl], ?_⟩
        intro t ht
        cases t with
        | zero => simpa using h1
        | succ k =>
          simp only [List.getD_cons_succ]
          exact hv k (by simpa using ht)

/-- C8: `get_type_names` is a pure lookup returning, for each slot, the
name recorded under that slot's ID in the table, and it fails (the spec's
`UnknownTypeIdError`, a `KeyError` in the code) exactly when some
looked-up ID has no entry in the table. -/
theorem C8_resolve_pure_lookup :
    (∀ (ids : List (List ℤ)) (m : List (ℤ × String))
        (res : List (List String)), get_type_names ids m = some res →
      res.length = ids.length ∧
      ∀ t, t < ids.length →
        (res.getD t []).length = (ids.getD t []).length ∧
        ∀ n, n < (ids.getD t []).length →
          m.lookup ((ids.getD t []).getD n 0) =
            some ((res.getD t []).getD n "")) ∧
    ∀ (ids : List (List ℤ)) (m : List (ℤ × String)),
      get_type_names ids m = none ↔
        ∃ t, t < ids.length ∧ ∃ n, n < (ids.getD t []).length ∧
          m.lookup ((ids.getD t []).getD n 0) = none := by
  constructor
  · intro ids m res h
    obtain ⟨hlen, hrow⟩ := get_type_names_some_spec ids m res h
    refine ⟨hlen, ?_⟩
    intro t ht
    obtain ⟨hl, hv⟩ := lookupRow_some_spec m _ _ (hrow t ht)
    exact ⟨hl, hv⟩
  · intro ids m
    rw [get_type_names_none_iff]
    constructor
    · rintro ⟨row, hrow, hl⟩
      obtain ⟨t, ht, hgd⟩ := (mem_iff_getD ids [] row).mp hrow
      obtain ⟨tid, htid, hnone⟩ := (lookupRow_none_iff m row).mp hl
      obtain ⟨n, hn, hgd2⟩ := (mem_iff_getD row 0 tid).mp htid
      exact ⟨t, ht, n, by rw [hgd]; exact hn, by rw [hgd, hgd2]; exact hnone⟩
    · rintro ⟨t, ht, n, hn, hnone⟩
      refine ⟨ids.getD t [], (mem_iff_getD ids [] _).mpr ⟨t, ht, rfl⟩, ?_⟩
      exact (lookupRow_none_iff m _).mpr
        ⟨(ids.getD t []).getD n 0, (mem_iff_getD _ 0 _).mpr ⟨n, hn, rfl⟩, hnone⟩

/-- Witness for C8 at a concrete ID array and table. -/
theorem C8_resolve_pure_lookup_witness :
    get_type_names [[(0 : ℤ), 1], [2]] [(0, "A"), (1, "B"), (2, "C")]
        = some [["A", "B"], ["C"]] ∧
    ([["A", "B"], ["C"]] : List (List String)).length
        = ([[(0 : ℤ), 1], [2]] : List (List ℤ)).length :=
  ⟨by rfl,
    (C8_resolve_pure_lookup.1 [[(0 : ℤ), 1], [2]]
      [(0, "A"), (1, "B"), (2, "C")] [["A", "B"], ["C"]] (by rfl)).1⟩

theorem strlen_eq_zero_iff (s : String) : s.length = 0 ↔ s = "" := by
  constructor
  · intro h
    cases s with
    | mk data =>
      have hd : data = [] := by simpa [String.length] using h
      subst hd
      rfl
  · intro h
    subst h
    rfl

theorem idMapOf_lookup : ∀ (P : List String) (k : ℕ) (tn : String),
    (idMapOf k P).lookup tn =
      if tn ∈ P then some ((k : ℤ) + (P.indexOf tn : ℤ)) else none := by
  intro P
  induction P with
  | nil => intro k tn; simp [idMapOf]
  | cons x rest ih =>
    intro k tn
    by_cases hx : x = tn
    · subst hx
      simp [idMapOf, List.lookup, List.indexOf_cons_self]
    · have hne : tn ≠ x := fun h => hx h.symm
      have hbeq : (tn == x) = false := by simp [hne]
      simp only [idMapOf, List.lookup, hbeq, ih (k + 1)]
      by_cases hmem : tn ∈ rest
      · simp only [List.mem_cons, hne, false_or, hmem, if_true,
          List.indexOf_cons_ne _ hx]
        congr 1
        push_cast
        ring
      · simp [List.mem_cons, hne, hmem]

theorem idMapOf_append : ∀ (P : List String) (k : ℕ) (tn : String),
    idMapOf k (P ++ [tn]) = idMapOf k P ++ [(tn, ((k + P.length : ℕ) : ℤ))] := by
  intro P
  induction P with
  | nil => intro k tn; simp [idMapOf]
  | cons x rest ih =>
    intro k tn
    have harith : k + 1 + rest.length = k + (rest.length + 1) := by omega
    simp only [List.cons_append, idMapOf, List.append_eq, ih (k + 1), harith,
      List.length_cons]

theorem nameMapOf_append : ∀ (P : List String) (k : ℕ) (tn : String),
    nameMapOf k (P ++ [tn]) =
      nameMapOf k P ++ [(((k + P.length : ℕ) : ℤ), tn)] := by
  intro P
  induction P with
  | nil => intro k tn; simp [nameMapOf]
  | cons x rest ih =>
    intro k tn
    have harith : k + 1 + rest.length = k + (rest.length + 1) := by omega
    simp only [List.cons_append, nameMapOf, List.append_eq, ih (k + 1), harith,
      List.length_cons]

theorem addSeen_extends (P : List String) (tn : String) :
    ∃ tail, addSeen P tn = P ++ tail := by
  unfold addSeen
  by_cases h : tn = "" ∨ tn ∈ P
  · exact ⟨[], by simp [h]⟩
  · exact ⟨[tn], by simp [h]⟩

theorem addSeen_mem (P : List String) (tn : String) (h : tn ≠ "") :
    tn ∈ addSeen P tn := by
  unfold addSeen
  by_cases hm : tn ∈ P
  · simp [hm]
  · simp [h, hm]

theorem foldl_addSeen_extends (l : List String) :
    ∀ P, ∃ tail, l.foldl addSeen P = P ++ tail := by
  induction l with
  | nil => intro P; exact ⟨[], by simp⟩
  | cons x rest ih =>
    intro P
    obtain ⟨t1, h1⟩ := addSeen_extends P x
    obtain ⟨t2, h2⟩ := ih (addSeen P x)
    refine ⟨t1 ++ t2, ?_⟩
    rw [List.foldl_cons, h2, h1, List.append_assoc]

theorem foldl_rows_addSeen_extends (rows : List (List String)) :
    ∀ P, ∃ tail,
      rows.foldl (fun acc row => row.foldl addSeen acc) P = P ++ tail := by
  induction rows with
  | nil => intro P; exact ⟨[], by simp⟩
  | cons row rest ih =>
    intro P
    obtain ⟨t1, h1⟩ := foldl_addSeen_extends row P
    obtain ⟨t2, h2⟩ := ih (row.foldl addSeen P)
    refine ⟨t1 ++ t2, ?_⟩
    rw [List.foldl_cons, h2, h1, List.append_assoc]

theorem foldl_addSeen_flatten (rows : List (List String)) :
    ∀ P, rows.flatten.foldl addSeen P =
      rows.foldl (fun acc row => row.foldl addSeen acc) P := by
  induction rows with
  | nil => intro P; rfl
  | cons row rest ih =>
    intro P
    simp [List.flatten_cons, List.foldl_append, ih]

theorem regCell_spec (e : ℕ → ℕ → ℤ) (t n : ℕ) (tn : String) (s : RegState)
    (P : List String) (hid : s.idMap = idMapOf 0 P)
    (hname : s.nameMap = nameMapOf 0 P)
    (hlast : s.lastTid = (P.length : ℤ)) :
    (regCell false e t n tn s).idMap = idMapOf 0 (addSeen P tn) ∧
    (regCell false e t n tn s).nameMap = nameMapOf 0 (addSeen P tn) ∧
    (regCell false e t n tn s).lastTid = ((addSeen P tn).length : ℤ) ∧
    ∀ a b, (regCell false e t n tn s).ids a b =
      if a = t ∧ b = n ∧ tn ≠ "" then ((addSeen P tn).indexOf tn : ℤ)
      else s.ids a b := by
  by_cases htn : tn = ""
  · subst htn
    have hA : addSeen P "" = P := by simp [addSeen]
    have hr : regCell false e t n "" s = s := by simp [regCell]
    rw [hr, hA]
    exact ⟨hid, hname, hlast, fun a b => by simp⟩
  · have hlen : ¬ tn.length = 0 := fun h => htn ((strlen_eq_zero_iff tn).mp h)
    by_cases hm : tn ∈ P
    · have hA : addSeen P tn = P := by simp [addSeen, hm]
      have hlook : s.idMap.lookup tn = some ((P.indexOf tn : ℤ)) := by
        rw [hid, idMapOf_lookup]
        simp [hm]
      refine ⟨?_, ?_, ?_, ?_⟩
      · rw [hA]; simpa [regCell, hlen, hlook] using hid
      · rw [hA]; simpa [regCell, hlen, hlook] using hname
      · rw [hA]; simpa [regCell, hlen, hlook] using hlast
      · intro a b
        rw [hA]
        by_cases hab : a = t ∧ b = n <;>
          simp [regCell, hlen, hlook, hab, htn]
    · have hA : addSeen P tn = P ++ [tn] := by simp [addSeen, htn, hm]
      have hlook : s.idMap.lookup tn = none := by
        rw [hid, idMapOf_lookup]
        simp [hm]
      have h00 : 0 + P.length = P.length := by omega
      have happ : s.idMap ++ [(tn, s.lastTid)] = idMapOf 0 (P ++ [tn]) := by
        rw [hid, hlast, idMapOf_append, h00]
      have happn : s.nameMap ++ [(s.lastTid, tn)] = nameMapOf 0 (P ++ [tn]) := by
        rw [hname, hlast, nameMapOf_append, h00]
      have hidx : (P ++ [tn]).indexOf tn = P.length := by
        rw [List.indexOf_append_of_not_mem hm, List.indexOf_cons_self]
        omega
      have hlook2 : (idMapOf 0 (P ++ [tn])).lookup tn
          = some ((P.length : ℤ)) := by
        rw [idMapOf_lookup]
        simp [hidx]
      refine ⟨?_, ?_, ?_, ?_⟩
      · rw [hA]; simpa [regCell, hlen, hlook] using happ
      · rw [hA]; simpa [regCell, hlen, hlook] using happn
      · rw [hA]
        simp [regCell, hlen, hlook, hlast, List.length_append]
      · intro a b
        rw [hA, hidx]
        by_cases hab : a = t ∧ b = n <;>
          simp [regCell, hlen, hlook, hab, htn, happ, hlook2]

theorem regCells_spec (e : ℕ → ℕ → ℤ) (t : ℕ) :
    ∀ (row : List String) (n₀ : ℕ) (s : RegState) (P : List String),
      s.idMap = idMapOf 0 P → s.nameMap = nameMapOf 0 P →
      s.lastTid = (P.length : ℤ) →
      (regCells false e t n₀ row s).idMap
          = idMapOf 0 (row.foldl addSeen P) ∧
      (regCells false e t n₀ row s).nameMap
          = nameMapOf 0 (row.foldl addSeen P) ∧
      (regCells false e t n₀ row s).lastTid
          = ((row.foldl addSeen P).length : ℤ) ∧
      ∀ a b, (regCells false e t n₀ row s).ids a b =
        if a = t ∧ n₀ ≤ b ∧ b < n₀ + row.length ∧
            (row.getD (b - n₀) "") ≠ "" then
          (((row.foldl addSeen P).indexOf (row.getD (b - n₀) "")) : ℤ)
        else s.ids a b := by
  intro row
  induction row with
  | nil =>
    intro n₀ s P hid hname hlast
    refine ⟨hid, hname, hlast, ?_⟩
    intro a b
    rw [if_neg]
    · rfl
    · rintro ⟨_, h1, h2, _⟩
      simp only [List.length_nil] at h2
      omega
  | cons tn rest ih =>
    intro n₀ s P hid hname hlast
    obtain ⟨h1, h2, h3, h4⟩ := regCell_spec e t n₀ tn s P hid hname hlast
    obtain ⟨g1, g2, g3, g4⟩ :=
      ih (n₀ + 1) (regCell false e t n₀ tn s) (addSeen P tn) h1 h2 h3
    have hrc : regCells false e t n₀ (tn :: rest) s
        = regCells false e t (n₀ + 1) rest (regCell false e t n₀ tn s) := rfl
    have hfold : (tn :: rest).foldl addSeen P
        = rest.foldl addSeen (addSeen P tn) := rfl
    rw [hrc, hfold]
    refine ⟨g1, g2, g3, ?_⟩
    intro a b
    rw [g4 a b]
    by_cases hrest : a = t ∧ n₀ + 1 ≤ b ∧ b < n₀ + 1 + rest.length ∧
        (rest.getD (b - (n₀ + 1)) "") ≠ ""
    · rw [if_pos hrest]
      have hb : b - n₀ = (b - (n₀ + 1)) + 1 := by omega
      have hgd : (tn :: rest).getD (b - n₀) "" = rest.getD (b - (n₀ + 1)) "" := by
        rw [hb]
        simp
      rw [if_pos ⟨hrest.1, by omega,
            by simp only [List.length_cons]; omega,
            by rw [hgd]; exact hrest.2.2.2⟩, hgd]
    · rw [if_neg hrest, h4 a b]
      by_cases hcell : a = t ∧ b = n₀ ∧ tn ≠ ""
      · rw [if_pos hcell]
        have hgd : (tn :: rest).getD (b - n₀) "" = tn := by
          rw [hcell.2.1]
          simp
        rw [if_pos ⟨hcell.1, by omega,
              by simp only [List.length_cons]; omega,
              by rw [hgd]; exact hcell.2.2⟩, hgd]
        obtain ⟨tail, htail⟩ := foldl_addSeen_extends rest (addSeen P tn)
        rw [htail, List.indexOf_append_of_mem (addSeen_mem P tn hcell.2.2)]
      · rw [if_neg hcell, if_neg ?_]
        rintro ⟨ha, hb1, hb2, hne⟩
        by_cases hbn : b = n₀
        · refine hcell ⟨ha, hbn, ?_⟩
          subst hbn
          simpa using hne
        · refine hrest ⟨ha, by omega, ?_, ?_⟩
          · simp only [List.length_cons] at hb2
            omega
          · have hb : b - n₀ = (b - (n₀ + 1)) + 1 := by omega
            rw [hb, List.getD_cons_succ] at hne
            exact hne

theorem mem_foldl_addSeen (row : List String) :
    ∀ (P : List String) (tn : String), tn ∈ row → tn ≠ "" →
      tn ∈ row.foldl addSeen P := by
  induction row with
  | nil => simp
  | cons x rest ih =>
    intro P tn hmem hne
    rcases List.mem_cons.mp hmem with rfl | hmem'
    · obtain ⟨tail, htail⟩ := foldl_addSeen_extends rest (addSeen P tn)
      rw [List.foldl_cons, htail]
      exact List.mem_append_left _ (addSeen_mem P tn hne)
    · rw [List.foldl_cons]
      exact ih (addSeen P x) tn hmem' hne

theorem regRows_spec (e : ℕ → ℕ → ℤ) :
    ∀ (rows : List (List String)) (t₀ : ℕ) (s : RegState) (P : List String),
      s.idMap = idMapOf 0 P → s.nameMap = nameMapOf 0 P →
      s.lastTid = (P.length : ℤ) →
      (regRows false e t₀ rows s).idMap
          = idMapOf 0 (rows.foldl (fun acc row => row.foldl addSeen acc) P) ∧
      (regRows false e t₀ rows s).nameMap
          = nameMapOf 0 (rows.foldl (fun acc row => row.foldl addSeen acc) P) ∧
      (regRows false e t₀ rows s).lastTid
          = ((rows.foldl (fun acc row => row.foldl addSeen acc) P).length : ℤ) ∧
      ∀ a b, (regRows false e t₀ rows s).ids a b =
        if t₀ ≤ a ∧ a < t₀ + rows.length ∧
            b < (rows.getD (a - t₀) []).length ∧
            ((rows.getD (a - t₀) []).getD b "") ≠ "" then
          (((rows.foldl (fun acc row => row.foldl addSeen acc) P).indexOf
              ((rows.getD (a - t₀) []).getD b "")) : ℤ)
        else s.ids a b := by
  intro rows
  induction rows with
  | nil =>
    intro t₀ s P hid hname hlast
    refine ⟨hid, hname, hlast, ?_⟩
    intro a b
    rw [if_neg]
    · rfl
    · rintro ⟨h1, h2, _, _⟩
      simp only [List.length_nil] at h2
      omega
  | cons row rest ih =>
    intro t₀ s P hid hname hlast
    obtain ⟨h1, h2, h3, h4⟩ := regCells_spec e t₀ row 0 s P hid hname hlast
    obtain ⟨g1, g2, g3, g4⟩ :=
      ih (t₀ + 1) (regCells false e t₀ 0 row s) (row.foldl addSeen P) h1 h2 h3
    have hrr : regRows false e t₀ (row :: rest) s
        = regRows false e (t₀ + 1) rest (regCells false e t₀ 0 row s) := rfl
    have hfold : (row :: rest).foldl (fun acc r => r.foldl addSeen acc) P
        = rest.foldl (fun acc r => r.foldl addSeen acc)
            (row.foldl addSeen P) := rfl
    rw [hrr, hfold]
    refine ⟨g1, g2, g3, ?_⟩
    intro a b
    rw [g4 a b]
    by_cases hrest : t₀ + 1 ≤ a ∧ a < t₀ + 1 + rest.length ∧
        b < (rest.getD (a - (t₀ + 1)) []).length ∧
        ((rest.getD (a - (t₀ + 1)) []).getD b "") ≠ ""
    · rw [if_pos hrest]
      have hb : a - t₀ = (a - (t₀ + 1)) + 1 := by omega
      have hgd : (row :: rest).getD (a - t₀) [] = rest.getD (a - (t₀ + 1)) [] := by
        rw [hb]
        simp
      rw [if_pos ⟨by omega,
            by simp only [List.length_cons]; omega,
            by rw [hgd]; exact hrest.2.2.1,
            by rw [hgd]; exact hrest.2.2.2⟩, hgd]
    · rw [if_neg hrest, h4 a b]
      by_cases hcell : a = t₀ ∧ 0 ≤ b ∧ b < 0 + row.length ∧
          (row.getD (b - 0) "") ≠ ""
      · rw [if_pos hcell]
        simp only [Nat.sub_zero]
        have hgd : (row :: rest).getD (a - t₀) [] = row := by
          rw [hcell.1]
          simp
        have hb0 : b < row.length := by
          have := hcell.2.2.1
          omega
        have hne2 : row.getD b "" ≠ "" := by
          have := hcell.2.2.2
          simpa using this
        rw [if_pos ⟨by omega,
              by simp only [List.length_cons]; omega,
              by rw [hgd]; exact hb0,
              by rw [hgd]; exact hne2⟩, hgd]
        obtain ⟨tail, htail⟩ := foldl_rows_addSeen_extends rest (row.foldl addSeen P)
        rw [htail]
        have hmem : (row.getD b "") ∈ row.foldl addSeen P := by
          refine mem_foldl_addSeen row P _ ?_ hne2
          rw [List.getD_eq_getElem _ _ hb0]
          exact List.getElem_mem _
        rw [List.indexOf_append_of_mem hmem]
      · rw [if_neg hcell, if_neg ?_]
        rintro ⟨ha1, ha2, hb1, hne⟩
        by_cases hat : a = t₀
        · refine hcell ⟨hat, by omega, ?_, ?_⟩
          · have : (row :: rest).getD (a - t₀) [] = row := by
              rw [hat]
              simp
            rw [this] at hb1
            omega
          · have : (row :: rest).getD (a - t₀) [] = row := by
              rw [hat]
              simp
            rw [this] at hne
            simpa using hne
        · refine hrest ⟨by omega, ?_, ?_, ?_⟩
          · simp only [List.length_cons] at ha2
            omega
          · have hb : a - t₀ = (a - (t₀ + 1)) + 1 := by omega
            rw [hb, List.getD_cons_succ] at hb1
            exact hb1
          · have hb : a - t₀ = (a - (t₀ + 1)) + 1 := by omega
            rw [hb, List.getD_cons_succ] at hne
            exact hne

/-- C7: with `existing_ids` omitted, `get_type_ids_and_mapping` assigns
IDs in first-seen order scanning timestep 0 first, agent index ascending,
the first distinct non-empty name getting ID 0 and each subsequent
distinct name the next unused integer; empty-string names are never
assigned an ID and their slot keeps the zero default; the name table pairs
the distinct names with exactly those IDs.  (Determinism is inherent: the
embedding is a pure function, so running it twice on the same input is
definitionally the same value.) -/
theorem C7_registry_first_seen (type_names : List (List String)) :
    (get_type_ids_and_mapping type_names none).1 = specTypeIds type_names ∧
    (get_type_ids_and_mapping type_names none).2 = specTable type_names := by
  obtain ⟨h1, h2, h3, h4⟩ := regRows_spec (fun _ _ => 0) type_names 0
    { ids := fun _ _ => 0, nameMap := [], idMap := [], lastTid := 0 } []
    rfl rfl rfl
  have hP : type_names.foldl (fun acc row => row.foldl addSeen acc) []
      = firstSeenNames type_names := by
    rw [firstSeenNames, foldl_addSeen_flatten]
  have hu : get_type_ids_and_mapping type_names none
      = ((regRows false (fun _ _ => 0) 0 type_names
            { ids := fun _ _ => 0, nameMap := [], idMap := [],
              lastTid := 0 }).ids,
         (regRows false (fun _ _ => 0) 0 type_names
            { ids := fun _ _ => 0, nameMap := [], idMap := [],
              lastTid := 0 }).nameMap) := rfl
  constructor
  · rw [hu]
    funext t n
    show (regRows false (fun _ _ => 0) 0 type_names
        { ids := fun _ _ => 0, nameMap := [], idMap := [],
          lastTid := 0 }).ids t n = specTypeIds type_names t n
    rw [h4 t n]
    simp only [Nat.sub_zero, Nat.zero_le, true_and, Nat.zero_add, hP]
    simp only [specTypeIds]
    by_cases hc : t < type_names.length ∧
        n < (type_names.getD t []).length ∧
        (type_names.getD t []).getD n "" ≠ ""
    · rw [if_pos hc, if_neg hc.2.2]
    · have hempty : (type_names.getD t []).getD n "" = "" := by
        by_cases ht : t < type_names.length
        · by_cases hn : n < (type_names.getD t []).length
          · by_contra hne
            exact hc ⟨ht, hn, hne⟩
          · exact List.getD_eq_default _ _ (by omega)
        · have hrow : type_names.getD t [] = [] :=
            List.getD_eq_default _ _ (by omega)
          rw [hrow]
          simp
      rw [if_neg hc, if_pos hempty]
  · rw [hu]
    show (regRows false (fun _ _ => 0) 0 type_names
        { ids := fun _ _ => 0, nameMap := [], idMap := [],
          lastTid := 0 }).nameMap = specTable type_names
    rw [h2, hP]
    rfl

/-- C3: merging two `AgentData` whose timestep counts differ fails with
the spec's `TimestepMismatchError` reporting both counts, raised before
any assignment, so both operands come back unchanged in every field. -/
theorem C3_merge_timestep_mismatch (a b : AgentData)
    (h : b.steps ≠ a.steps) :
    append_agents a b = (.error ⟨b.steps, a.steps⟩, a, b) := by
  simp [append_agents, h]

/-- Witness for C3: merging 3- and 5-timestep trajectories. -/
theorem C3_merge_timestep_mismatch_witness :
    (mkSimpleAgentData [[1], [2], [3], [4], [5]]
        [["A"], ["A"], ["A"], ["A"], ["A"]]).steps ≠
      (mkSimpleAgentData [[1], [2], [3]] [["A"], ["A"], ["A"]]).steps ∧
    append_agents (mkSimpleAgentData [[1], [2], [3]] [["A"], ["A"], ["A"]])
        (mkSimpleAgentData [[1], [2], [3], [4], [5]]
          [["A"], ["A"], ["A"], ["A"], ["A"]]) =
      (.error ⟨5, 3⟩,
        mkSimpleAgentData [[1], [2], [3]] [["A"], ["A"], ["A"]],
        mkSimpleAgentData [[1], [2], [3], [4], [5]]
          [["A"], ["A"], ["A"], ["A"], ["A"]]) :=
  ⟨by decide,
    C3_merge_timestep_mismatch
      (mkSimpleAgentData [[1], [2], [3]] [["A"], ["A"], ["A"]])
      (mkSimpleAgentData [[1], [2], [3], [4], [5]]
        [["A"], ["A"], ["A"], ["A"], ["A"]]) (by decide)⟩

/-- C1: evaluation of the merge at the failing input.  Base has one agent
of type `"A"` and no type IDs, incoming has one agent of type `"B"` and no
type IDs; the code gives each operand its own per-operand registry (both
starting at ID 0) and copies the IDs verbatim, so the merged result
assigns the *distinct* names `"A"` and `"B"` the *same* type ID 0 —
contradicting the claimed single fresh registry scoped to the merged
result (and the code's own comment that IDs are regenerated "so they
don't overlap"). -/
theorem C1_merge_type_ids_collide :
    (append_agents (mkSimpleAgentData [[1]] [["A"]])
        (mkSimpleAgentData [[2]] [["B"]])).1 = .ok () ∧
    ((append_agents (mkSimpleAgentData [[1]] [["A"]])
        (mkSimpleAgentData [[2]] [["B"]])).2.1.type_ids.map
      fun f => (f 0 0, f 0 1)) = some (0, 0) ∧
    (append_agents (mkSimpleAgentData [[1]] [["A"]])
        (mkSimpleAgentData [[2]] [["B"]])).2.1.types = [["A", "B"]] ∧
    "A" ≠ "B" := by
  refine ⟨rfl, rfl, rfl, by decide⟩

theorem applySign_applySign (s : Bool) (q : ℚ) :
    applySign s (applySign s q) = q := by
  cases s <;> simp [applySign]

theorem transformVec_inverse (m m' : Fin 3 → SignedAxis)
    (hm : Function.Injective fun i => (m i).axis)
    (hinv : ∀ j, m' ((m j).axis) = ⟨(m j).neg, j⟩) (v : Fin 3 → ℚ) :
    transformVec m' (transformVec m v) = v := by
  funext i
  obtain ⟨j, hj⟩ := Finite.injective_iff_surjective.mp hm i
  rw [← hj]
  show applySign (m' ((m j).axis)).neg
      (transformVec m v ((m' ((m j).axis)).axis)) = v ((m j).axis)
  rw [hinv j]
  show applySign (m j).neg
      (applySign (m j).neg (v ((m j).axis))) = v ((m j).axis)
  exact applySign_applySign _ _

theorem inverse_axes_injective (m m' : Fin 3 → SignedAxis)
    (hm : Function.Injective fun i => (m i).axis)
    (hinv : ∀ j, m' ((m j).axis) = ⟨(m j).neg, j⟩) :
    Function.Injective fun i => (m' i).axis := by
  intro i1 i2 h12
  obtain ⟨j1, hj1⟩ := Finite.injective_iff_surjective.mp hm i1
  obtain ⟨j2, hj2⟩ := Finite.injective_iff_surjective.mp hm i2
  rw [← hj1, ← hj2] at h12 ⊢
  have e1 : m' ((m j1).axis) = ⟨(m j1).neg, j1⟩ := hinv j1
  have e2 : m' ((m j2).axis) = ⟨(m j2).neg, j2⟩ := hinv j2
  simp only at h12
  rw [e1, e2] at h12
  simp only at h12
  rw [h12]

/-- C9: for an axes mapping that is a signed permutation of exactly the
three axes, the spatial axis transform applies the same signed
permutation to every position, rotation, and subpoint coordinate at every
timestep/agent/subpoint while leaving radii, IDs, and type data
untouched; the mapping `{X:+X, Y:-Z, Z:+Y}` sends `(36.93, 36.8, 16.78)`
to `(36.93, -16.78, 36.8)`; and applying the inverse mapping to the
transformed data recovers the original data. -/
theorem C9_axis_transform (m m' : Fin 3 → SignedAxis) (d : AgentData)
    (hm : Function.Injective fun i => (m i).axis)
    (hinv : ∀ j, m' ((m j).axis) = ⟨(m j).neg, j⟩) :
    (∃ d', transform_spatial_axes m d = .ok d' ∧
      (∀ t n i, d'.positions t n i
          = applySign (m i).neg (d.positions t n ((m i).axis))) ∧
      (∀ t n i, d'.rotations t n i
          = applySign (m i).neg (d.rotations t n ((m i).axis))) ∧
      (∀ t n p i, d'.subpoints t n p i
          = applySign (m i).neg (d.subpoints t n p ((m i).axis))) ∧
      d'.radii = d.radii ∧ d'.unique_ids = d.unique_ids ∧
      d'.type_ids = d.type_ids ∧ d'.types = d.types ∧
      d'.n_agents = d.n_agents ∧ d'.times = d.times ∧
      transform_spatial_axes m' d' = .ok d) ∧
    transformVec ![⟨false, 0⟩, ⟨true, 2⟩, ⟨false, 1⟩]
        ![(3693 / 100 : ℚ), 368 / 10, 1678 / 100]
      = ![(3693 / 100 : ℚ), -(1678 / 100), 368 / 10] := by
  constructor
  · have hm' : Function.Injective fun i => (m' i).axis :=
      inverse_axes_injective m m' hm hinv
    refine ⟨{ d with
        positions := fun t n => transformVec m (d.positions t n),
        rotations := fun t n => transformVec m (d.rotations t n),
        subpoints := fun t n p => transformVec m (d.subpoints t n p) },
      ?_, ?_, ?_, ?_, rfl, rfl, rfl, rfl, rfl, rfl, ?_⟩
    · rw [transform_spatial_axes, if_pos hm]
    · intro t n i; rfl
    · intro t n i; rfl
    · intro t n p i; rfl
    · rw [transform_spatial_axes, if_pos hm']
      have hpos : (fun t n => transformVec m'
          (transformVec m (d.positions t n))) = d.positions := by
        funext t n
        exact transformVec_inverse m m' hm hinv _
      have hrot : (fun t n => transformVec m'
          (transformVec m (d.rotations t n))) = d.rotations := by
        funext t n
        exact transformVec_inverse m m' hm hinv _
      have hsub : (fun t n p => transformVec m'
          (transformVec m (d.subpoints t n p))) = d.subpoints := by
        funext t n p
        exact transformVec_inverse m m' hm hinv _
      congr 1
      cases d
      simp only [AgentData.mk.injEq, and_true, true_and]
      exact ⟨hpos, hrot, hsub⟩
  · funext i
    fin_cases i <;> norm_num [transformVec, applySign]

/-- Witness for C9: the test's mapping `{X:+X, Y:-Z, Z:+Y}` with its
inverse `{X:+X, Y:+Z, Z:-Y}`, on a one-agent trajectory. -/
theorem C9_axis_transform_witness :
    Function.Injective
      (fun i => ((![⟨false, 0⟩, ⟨true, 2⟩, ⟨false, 1⟩] :
        Fin 3 → SignedAxis) i).axis) ∧
    (∀ j, (![⟨false, 0⟩, ⟨false, 2⟩, ⟨true, 1⟩] : Fin 3 → SignedAxis)
        (((![⟨false, 0⟩, ⟨true, 2⟩, ⟨false, 1⟩] : Fin 3 → SignedAxis)
          j).axis)
      = ⟨((![⟨false, 0⟩, ⟨true, 2⟩, ⟨false, 1⟩] :
          Fin 3 → SignedAxis) j).neg, j⟩) ∧
    ((∃ d', transform_spatial_axes
        (![⟨false, 0⟩, ⟨true, 2⟩, ⟨false, 1⟩])
        (mkSimpleAgentData [[1]] [["A"]]) = .ok d' ∧
      (∀ t n i, d'.positions t n i
          = applySign ((![⟨false, 0⟩, ⟨true, 2⟩, ⟨false, 1⟩] :
              Fin 3 → SignedAxis) i).neg
            ((mkSimpleAgentData [[1]] [["A"]]).positions t n
              (((![⟨false, 0⟩, ⟨true, 2⟩, ⟨false, 1⟩] :
                Fin 3 → SignedAxis) i).axis))) ∧
      (∀ t n i, d'.rotations t n i
          = applySign ((![⟨false, 0⟩, ⟨true, 2⟩, ⟨false, 1⟩] :
              Fin 3 → SignedAxis) i).neg
            ((mkSimpleAgentData [[1]] [["A"]]).rotations t n
              (((![⟨false, 0⟩, ⟨true, 2⟩, ⟨false, 1⟩] :
                Fin 3 → SignedAxis) i).axis))) ∧
      (∀ t n p i, d'.subpoints t n p i
          = applySign ((![⟨false, 0⟩, ⟨true, 2⟩, ⟨false, 1⟩] :
              Fin 3 → SignedAxis) i).neg
            ((mkSimpleAgentData [[1]] [["A"]]).subpoints t n p
              (((![⟨false, 0⟩, ⟨true, 2⟩, ⟨false, 1⟩] :
                Fin 3 → SignedAxis) i).axis))) ∧
      d'.radii = (mkSimpleAgentData [[1]] [["A"]]).radii ∧
      d'.unique_ids = (mkSimpleAgentData [[1]] [["A"]]).unique_ids ∧
      d'.type_ids = (mkSimpleAgentData [[1]] [["A"]]).type_ids ∧
      d'.types = (mkSimpleAgentData [[1]] [["A"]]).types ∧
      d'.n_agents = (mkSimpleAgentData [[1]] [["A"]]).n_agents ∧
      d'.times = (mkSimpleAgentData [[1]] [["A"]]).times ∧
      transform_spatial_axes
        (![⟨false, 0⟩, ⟨false, 2⟩, ⟨true, 1⟩]) d'
        = .ok (mkSimpleAgentData [[1]] [["A"]])) ∧
    transformVec ![⟨false, 0⟩, ⟨true, 2⟩, ⟨false, 1⟩]
        ![(3693 / 100 : ℚ), 368 / 10, 1678 / 100]
      = ![(3693 / 100 : ℚ), -(1678 / 100), 368 / 10]) :=
  ⟨by decide, by decide,
    C9_axis_transform ![⟨false, 0⟩, ⟨true, 2⟩, ⟨false, 1⟩]
      ![⟨false, 0⟩, ⟨false, 2⟩, ⟨true, 1⟩]
      (mkSimpleAgentData [[1]] [["A"]]) (by decide) (by decide)⟩

theorem pyInt_natCast (n : ℕ) : pyInt ((n : ℚ)) = (n : ℤ) := by
  simp [pyInt]

theorem pyGet_nonneg (data : List ℚ) (j : ℕ) :
    pyGet data ((j : ℕ) : ℤ) = data.get? j := by
  simp [pyGet]

theorem pyGet_append_at (pre suf : List ℚ) (j : ℕ) :
    pyGet (pre ++ suf) ((pre.length : ℤ) + (j : ℤ)) = pyGet suf (j : ℤ) := by
  have hc : ((pre.length : ℤ) + (j : ℤ)) = (((pre.length + j : ℕ)) : ℤ) := by
    push_cast
    ring
  rw [hc, pyGet_nonneg, pyGet_nonneg]
  rw [List.get?_append_right (by omega)]
  congr 1
  omega

theorem encodeRecord_length (r : AgentRecord) :
    (encodeRecord r).length = 11 + r.spScalars.length := by
  simp [encodeRecord]
  omega

theorem encodeRecord_nsp (r : AgentRecord) (rest : List ℚ) :
    pyGet (encodeRecord r ++ rest) (((10 : ℕ)) : ℤ)
      = some ((r.spScalars.length : ℚ)) := by
  rw [pyGet_nonneg]
  rfl

theorem floor_div_three (n : ℕ) : ⌊((n : ℚ)) / 3⌋ = (n : ℤ) / 3 := by
  have h := Rat.floor_intCast_div_natCast (n : ℤ) 3
  push_cast at h
  simpa using h

theorem scanFrameLoop_step (pre rest : List ℚ) (r : AgentRecord) (f : ℕ)
    (nA : ℕ) (maxS : ℤ) :
    scanFrameLoop (pre ++ (encodeRecord r ++ rest)) (f + 1)
        ((pre.length : ℤ)) nA maxS
      = scanFrameLoop (pre ++ (encodeRecord r ++ rest)) f
          (((pre ++ encodeRecord r).length : ℤ)) (nA + 1)
          (max maxS (recPoints r)) := by
  have hlt : ((pre.length : ℤ))
      < (((pre ++ (encodeRecord r ++ rest)).length : ℕ) : ℤ) := by
    have := encodeRecord_length r
    simp only [List.length_append]
    push_cast
    omega
  have hg : pyGet (pre ++ (encodeRecord r ++ rest))
      ((pre.length : ℤ) + ((NSP_INDEX : ℕ) : ℤ))
      = some ((r.spScalars.length : ℚ)) := by
    have h10 : ((NSP_INDEX : ℕ) : ℤ) = (((10 : ℕ)) : ℤ) := rfl
    rw [h10, pyGet_append_at pre (encodeRecord r ++ rest) 10]
    exact encodeRecord_nsp r rest
  have hone : ((VALUES_PER_AGENT - NSP_INDEX - 1 : ℕ) : ℚ) = 1 := by
    norm_num [VALUES_PER_AGENT, NSP_INDEX]
  simp only [scanFrameLoop, if_pos hlt, hg, hone]
  congr 1
  · have hc : ((r.spScalars.length : ℚ)) + 1
        = (((r.spScalars.length + 1 : ℕ)) : ℚ) := by
      push_cast
      ring
    rw [hc, pyInt_natCast]
    have := encodeRecord_length r
    simp only [List.length_append, NSP_INDEX]
    push_cast
    omega
  · rw [floor_div_three]
    rfl

theorem scanFrameLoop_at_end (data : List ℚ) (f : ℕ) (nA : ℕ) (maxS : ℤ) :
    scanFrameLoop data (f + 1) ((data.length : ℤ)) nA maxS
      = some (nA, maxS) := by
  simp [scanFrameLoop]

theorem scanFrameLoop_slack (pre tail : List ℚ) (f : ℕ) (nA : ℕ) (maxS : ℤ)
    (h1 : 1 ≤ tail.length) (h2 : tail.length ≤ 10) :
    scanFrameLoop (pre ++ tail) (f + 1) ((pre.length : ℤ)) nA maxS
      = none := by
  have hlt : ((pre.length : ℤ)) < (((pre ++ tail).length : ℕ) : ℤ) := by
    simp only [List.length_append]
    push_cast
    omega
  have hg : pyGet (pre ++ tail) ((pre.length : ℤ) + ((NSP_INDEX : ℕ) : ℤ))
      = none := by
    have h10 : ((NSP_INDEX : ℕ) : ℤ) = (((10 : ℕ)) : ℤ) := rfl
    rw [h10, pyGet_append_at pre tail 10, pyGet_nonneg]
    exact List.get?_eq_none.mpr (by omega)
  simp only [scanFrameLoop, if_pos hlt, hg]

theorem scanFrameLoop_overrun (pre tail : List ℚ) (v : ℚ) (f : ℕ)
    (nA : ℕ) (maxS : ℤ) (hv : tail.get? 10 = some v)
    (hover : (((pre ++ tail).length : ℕ) : ℤ)
      ≤ (pre.length : ℤ) + 10 + pyInt (v + 1)) :
    scanFrameLoop (pre ++ tail) (f + 2) ((pre.length : ℤ)) nA maxS
      = some (nA + 1, max maxS ⌊v / 3⌋) := by
  have hlen : 11 ≤ tail.length := by
    obtain ⟨h10, _⟩ := List.get?_eq_some.mp hv
    omega
  have hlt : ((pre.length : ℤ)) < (((pre ++ tail).length : ℕ) : ℤ) := by
    simp only [List.length_append]
    push_cast
    omega
  have hg : pyGet (pre ++ tail) ((pre.length : ℤ) + ((NSP_INDEX : ℕ) : ℤ))
      = some v := by
    have h10 : ((NSP_INDEX : ℕ) : ℤ) = (((10 : ℕ)) : ℤ) := rfl
    rw [h10, pyGet_append_at pre tail 10, pyGet_nonneg]
    exact hv
  have hone : ((VALUES_PER_AGENT - NSP_INDEX - 1 : ℕ) : ℚ) = 1 := by
    norm_num [VALUES_PER_AGENT, NSP_INDEX]
  simp only [scanFrameLoop, if_pos hlt, hg, hone]
  have hge : ¬ ((pre.length : ℤ) + ((NSP_INDEX : ℕ) : ℤ) + pyInt (v + 1)
      < (((pre ++ tail).length : ℕ) : ℤ)) := by
    have h10 : ((NSP_INDEX : ℕ) : ℤ) = (10 : ℤ) := rfl
    rw [h10]
    omega
  simp only [scanFrameLoop, if_neg hge]

theorem encodeFrame_length_ge (recs : List AgentRecord) :
    recs.length ≤ (encodeFrame recs).length := by
  induction recs with
  | nil => simp [encodeFrame]
  | cons r rest ih =>
    have := encodeRecord_length r
    simp only [encodeFrame, List.map_cons, List.flatten_cons,
      List.length_append, List.length_cons]
    simp only [encodeFrame] at ih
    omega

theorem scanFrameLoop_records (recs : List AgentRecord) :
    ∀ (pre tail : List ℚ) (f : ℕ) (nA : ℕ) (maxS : ℤ),
      scanFrameLoop (pre ++ (encodeFrame recs ++ tail)) (f + recs.length)
          ((pre.length : ℤ)) nA maxS
        = scanFrameLoop (pre ++ (encodeFrame recs ++ tail)) f
            (((pre ++ encodeFrame recs).length : ℤ)) (nA + recs.length)
            (maxPointsFold recs maxS) := by
  induction recs with
  | nil =>
    intro pre tail f nA maxS
    simp [encodeFrame, maxPointsFold]
  | cons r rest ih =>
    intro pre tail f nA maxS
    have hef : encodeFrame (r :: rest) = encodeRecord r ++ encodeFrame rest := by
      simp [encodeFrame]
    rw [hef, List.append_assoc (encodeRecord r) (encodeFrame rest) tail]
    have hfl : f + (r :: rest).length = (f + rest.length) + 1 := by
      simp only [List.length_cons]
      omega
    rw [hfl, scanFrameLoop_step pre (encodeFrame rest ++ tail) r
      (f + rest.length) nA maxS]
    have hih := ih (pre ++ encodeRecord r) tail f (nA + 1)
      (max maxS (recPoints r))
    rw [List.append_assoc pre (encodeRecord r) (encodeFrame rest ++ tail)]
      at hih
    rw [hih]
    have hlen : ((pre ++ encodeRecord r) ++ encodeFrame rest).length
        = (pre ++ (encodeRecord r ++ encodeFrame rest)).length := by
      simp [List.append_assoc]
    have hcnt : nA + 1 + rest.length = nA + (rest.length + 1) := by omega
    have hmax : maxPointsFold rest (max maxS (recPoints r))
        = maxPointsFold (r :: rest) maxS := rfl
    rw [hlen, hcnt, hmax]
    simp only [List.length_cons]

theorem scanFrame_encoded (recs : List AgentRecord) (maxS : ℤ) :
    scanFrame (encodeFrame recs) maxS
      = some (recs.length, maxPointsFold recs maxS) := by
  have hlen : recs.length ≤ (encodeFrame recs).length :=
    encodeFrame_length_ge recs
  have hfuel : (encodeFrame recs).length + 1
      = ((encodeFrame recs).length - recs.length + 1) + recs.length := by
    omega
  have hrec := scanFrameLoop_records recs [] []
    ((encodeFrame recs).length - recs.length + 1) 0 maxS
  simp only [List.nil_append, List.append_nil, List.length_nil,
    Nat.cast_zero, Nat.zero_add] at hrec
  unfold scanFrame
  rw [hfuel, hrec, scanFrameLoop_at_end]

theorem scanBundle_encoded (frames : List (List AgentRecord)) :
    ∀ (maxA : ℕ) (maxS : ℤ),
      scanBundle (frames.map encodeFrame) maxA maxS
        = some (frames.foldl (fun m fr => max m fr.length) maxA,
                frames.foldl (fun m fr => maxPointsFold fr m) maxS) := by
  induction frames with
  | nil => intro maxA maxS; rfl
  | cons fr rest ih =>
    intro maxA maxS
    simp only [List.map_cons, scanBundle, scanFrame_encoded fr maxS]
    exact ih (max maxA fr.length) (maxPointsFold fr maxS)

/-- C5: on every well-formed packed buffer (a concatenation of records in
the §4.1 layout, each of length 11 + its `N_SUBPOINTS` value), the
dimension scanner returns exactly `(total_timesteps,
max_agents_in_any_timestep, max_subpoint_count_in_any_record)`, the
per-record point count being the `N_SUBPOINTS` scalar divided by 3 with
floor division. -/
theorem C5_scanner_dimensions (frames : List (List AgentRecord)) :
    get_buffer_data_dimensions (frames.map encodeFrame)
      = some (frames.length, maxAgentsFold frames, maxPointsBundle frames) := by
  unfold get_buffer_data_dimensions
  rw [scanBundle_encoded frames 0 0]
  simp [maxAgentsFold, maxPointsBundle]

/-- C4 counterexample: a timestep whose scalar sequence holds a single
leftover scalar (fewer than one minimal record).  The claim says the
scanner stops without error; the code walks past the end and raises
`IndexError` (modelled as `none`). -/
theorem C4_counterexample_slack_is_error :
    get_buffer_data_dimensions [[0]] = none := by
  rfl

/-- C4 (amended): the scanner stops a timestep only when exactly zero
scalars remain.  If 1–10 scalars remain at a record boundary it fails
with an out-of-range read (`IndexError`, not a graceful stop and not
`MalformedBufferError`); a record whose declared subpoint length would
read past the end of the timestep's scalar sequence is *not* an error —
the scanner counts it and stops. -/
theorem C4_scanner_slack_and_overrun :
    (∀ (recs : List AgentRecord) (tail : List ℚ),
        1 ≤ tail.length → tail.length ≤ 10 →
        get_buffer_data_dimensions [encodeFrame recs ++ tail] = none) ∧
    (∀ (recs : List AgentRecord) (tail : List ℚ) (v : ℚ),
        tail.get? 10 = some v →
        ((encodeFrame recs ++ tail).length : ℤ)
          ≤ ((encodeFrame recs).length : ℤ) + 10 + pyInt (v + 1) →
        get_buffer_data_dimensions [encodeFrame recs ++ tail]
          = some (1, recs.length + 1,
              max (maxPointsFold recs 0) ⌊v / 3⌋)) := by
  have hframe : ∀ (recs : List AgentRecord) (tail : List ℚ) (maxS : ℤ),
      scanFrame (encodeFrame recs ++ tail) maxS
        = scanFrameLoop (encodeFrame recs ++ tail)
            ((encodeFrame recs).length + tail.length + 1 - recs.length)
            (((encodeFrame recs).length : ℤ)) recs.length
            (maxPointsFold recs maxS) := by
    intro recs tail maxS
    have hlen : recs.length ≤ (encodeFrame recs).length :=
      encodeFrame_length_ge recs
    have hfuel : (encodeFrame recs ++ tail).length + 1
        = ((encodeFrame recs).length + tail.length + 1 - recs.length)
          + recs.length := by
      simp only [List.length_append]
      omega
    have hrec := scanFrameLoop_records recs [] tail
      ((encodeFrame recs).length + tail.length + 1 - recs.length) 0 maxS
    simp only [List.nil_append, List.length_nil, Nat.cast_zero,
      Nat.zero_add] at hrec
    unfold scanFrame
    rw [hfuel, hrec]
  constructor
  · intro recs tail h1 h2
    have hlen : recs.length ≤ (encodeFrame recs).length :=
      encodeFrame_length_ge recs
    have hf : (encodeFrame recs).length + tail.length + 1 - recs.length
        = ((encodeFrame recs).length + tail.length - recs.length) + 1 := by
      omega
    have hnone : scanFrame (encodeFrame recs ++ tail) 0 = none := by
      rw [hframe, hf, scanFrameLoop_slack _ _ _ _ _ h1 h2]
    unfold get_buffer_data_dimensions
    simp [scanBundle, hnone]
  · intro recs tail v hv hover
    have hlen : recs.length ≤ (encodeFrame recs).length :=
      encodeFrame_length_ge recs
    obtain ⟨h10, _⟩ := List.get?_eq_some.mp hv
    have hf : (encodeFrame recs).length + tail.length + 1 - recs.length
        = ((encodeFrame recs).length + tail.length - 1 - recs.length) + 2 := by
      omega
    have hsome : scanFrame (encodeFrame recs ++ tail) 0
        = some (recs.length + 1, max (maxPointsFold recs 0) ⌊v / 3⌋) := by
      rw [hframe, hf, scanFrameLoop_overrun _ _ v _ _ _ hv
        (by simpa using hover)]
    unfold get_buffer_data_dimensions
    simp [scanBundle, hsome]

/-- Witness for C4 (amended): a well-formed record followed by two
leftover scalars errors; a lone record declaring 30 subpoint scalars it
does not have is accepted with point count 10. -/
theorem C4_scanner_slack_and_overrun_witness :
    (1 ≤ ([0, 5] : List ℚ).length ∧ ([0, 5] : List ℚ).length ≤ 10 ∧
      get_buffer_data_dimensions
        [encodeFrame [⟨1000, 1, 1, 0, 0, 0, 0, 0, 0, 2, []⟩] ++ [0, 5]]
        = none) ∧
    (([1000, 1, 1, 0, 0, 0, 0, 0, 0, 2, 30] : List ℚ).get? 10 = some 30 ∧
      get_buffer_data_dimensions
        [encodeFrame [] ++ [1000, 1, 1, 0, 0, 0, 0, 0, 0, 2, 30]]
        = some (1, 1, 10)) := by
  constructor
  · refine ⟨by decide, by decide, ?_⟩
    exact C4_scanner_slack_and_overrun.1
      [⟨1000, 1, 1, 0, 0, 0, 0, 0, 0, 2, []⟩] [0, 5]
      (by decide) (by decide)
  · constructor
    · rfl
    · have h31 : ((30 : ℚ) + 1) = (((31 : ℕ)) : ℚ) := by norm_cast
      have h30 : ((30 : ℚ)) = (((30 : ℕ)) : ℚ) := by norm_cast
      have hov : ((encodeFrame ([] : List AgentRecord)
            ++ [1000, 1, 1, 0, 0, 0, 0, 0, 0, 2, 30]).length : ℤ)
          ≤ ((encodeFrame ([] : List AgentRecord)).length : ℤ) + 10
            + pyInt (30 + 1) := by
        rw [h31, pyInt_natCast]
        simp [encodeFrame]
      have h := C4_scanner_slack_and_overrun.2 []
        [1000, 1, 1, 0, 0, 0, 0, 0, 0, 2, 30] 30 (by rfl) hov
      have hval : max (maxPointsFold ([] : List AgentRecord) 0)
          ⌊((30 : ℚ)) / 3⌋ = 10 := by
        rw [h30, floor_div_three]
        decide
      rw [hval] at h
      exact h

theorem probe_free_exists (used : List ℤ) (x : ℤ) :
    ∃ k : ℕ, k ≤ used.length ∧ (x + (k : ℤ)) ∉ used := by
  by_contra h
  push_neg at h
  have hmem : ∀ k : Fin (used.length + 1),
      x + ((k : ℕ) : ℤ) ∈ used.toFinset := by
    intro k
    rw [List.mem_toFinset]
    exact h k (Nat.lt_succ_iff.mp k.isLt)
  have hinj : Function.Injective
      (fun k : Fin (used.length + 1) => x + ((k : ℕ) : ℤ)) := by
    intro k1 k2 he
    simp only [add_right_inj, Nat.cast_inj] at he
    exact Fin.ext he
  have hmaps : ∀ k ∈ (Finset.univ : Finset (Fin (used.length + 1))),
      x + ((k : ℕ) : ℤ) ∈ used.toFinset := fun k _ => hmem k
  have hcard := Finset.card_le_card_of_injOn
    (fun k : Fin (used.length + 1) => x + ((k : ℕ) : ℤ)) hmaps hinj.injOn
  rw [Finset.card_univ, Fintype.card_fin] at hcard
  have htf := used.toFinset_card_le
  omega

theorem probe_spec_aux : ∀ (fuel : ℕ) (used : List ℤ) (x : ℤ),
    (∃ k : ℕ, k < fuel ∧ (x + (k : ℤ)) ∉ used) →
    IsLeastFreeFrom used x (probe used x fuel) := by
  intro fuel
  induction fuel with
  | zero =>
    rintro used x ⟨k, hk, _⟩
    omega
  | succ f ih =>
    rintro used x ⟨k, hk, hfree⟩
    unfold IsLeastFreeFrom
    by_cases hx : x ∈ used
    · have hk0 : k ≠ 0 := by
        rintro rfl
        simp only [Nat.cast_zero, add_zero] at hfree
        exact hfree hx
      obtain ⟨k', rfl⟩ : ∃ k', k = k' + 1 := ⟨k - 1, by omega⟩
      have hfree' : (x + 1 + (k' : ℤ)) ∉ used := by
        have hc : x + 1 + (k' : ℤ) = x + ((k' + 1 : ℕ) : ℤ) := by
          push_cast
          ring
        rw [hc]
        exact hfree
      have hspec := ih used (x + 1) ⟨k', by omega, hfree'⟩
      unfold IsLeastFreeFrom at hspec
      have hprobe : probe used x (f + 1) = probe used (x + 1) f := by
        simp [probe, hx]
      rw [hprobe]
      obtain ⟨h1, h2, h3⟩ := hspec
      refine ⟨by omega, h2, ?_⟩
      intro y hy1 hy2
      by_cases hyx : y = x
      · subst hyx
        exact hx
      · exact h3 y (by omega) hy2
    · have hprobe : probe used x (f + 1) = x := by simp [probe, hx]
      rw [hprobe]
      refine ⟨le_refl x, hx, ?_⟩
      intro y hy1 hy2
      exact absurd hy2 (by omega)

theorem probe_spec (used : List ℤ) (x : ℤ) :
    IsLeastFreeFrom used x (probe used x (used.length + 1)) := by
  obtain ⟨k, hk, hfree⟩ := probe_free_exists used x
  exact probe_spec_aux (used.length + 1) used x ⟨k, by omega, hfree⟩

theorem lookup_some_mem {α : Type _} [DecidableEq α] {β : Type _}
    (l : List (α × β)) (r : α) (w : β) (h : l.lookup r = some w) :
    (r, w) ∈ l := by
  induction l with
  | nil => cases h
  | cons p rest ih =>
    by_cases hr : r = p.1
    · subst hr
      have : some p.2 = some w := by
        simpa [List.lookup] using h
      cases this
      exact List.mem_cons_self _ _
    · have hbeq : (r == p.1) = false := by simp [hr]
      rw [show p = (p.1, p.2) from rfl, List.lookup, hbeq] at h
      exact List.mem_cons_of_mem _ (ih h)

theorem lookup_some_key_mem {α : Type _} [DecidableEq α] {β : Type _}
    (l : List (α × β)) (r : α) (w : β) (h : l.lookup r = some w) :
    r ∈ l.map Prod.fst := by
  have := lookup_some_mem l r w h
  exact List.mem_map.mpr ⟨(r, w), this, rfl⟩

theorem lookup_none_not_mem {α : Type _} [DecidableEq α] {β : Type _}
    (l : List (α × β)) (r : α) (h : l.lookup r = none) :
    r ∉ l.map Prod.fst := by
  induction l with
  | nil => simp
  | cons p rest ih =>
    by_cases hr : r = p.1
    · subst hr
      simp [List.lookup] at h
    · have hbeq : (r == p.1) = false := by simp [hr]
      rw [show p = (p.1, p.2) from rfl, List.lookup, hbeq] at h
      simp only [List.map_cons, List.mem_cons]
      rintro (hc | hc)
      · exact hr hc
      · exact ih h hc

theorem not_mem_lookup_none {α : Type _} [DecidableEq α] {β : Type _}
    (l : List (α × β)) (r : α) (h : r ∉ l.map Prod.fst) :
    l.lookup r = none := by
  cases hl : l.lookup r with
  | none => rfl
  | some w => exact absurd (lookup_some_key_mem l r w hl) h

theorem lookup_append_eq {α : Type _} [DecidableEq α] {β : Type _}
    (xs ys : List (α × β)) (r : α) :
    (xs ++ ys).lookup r
      = match xs.lookup r with
        | some w => some w
        | none => ys.lookup r := by
  induction xs with
  | nil => simp [List.lookup]
  | cons p rest ih =>
    by_cases hr : r = p.1
    · subst hr
      simp [List.lookup]
    · have hbeq : (r == p.1) = false := by simp [hr]
      rw [show p = (p.1, p.2) from rfl] at *
      simp only [List.cons_append, List.append_eq, List.lookup, hbeq]
      exact ih

theorem lookup_reverse_eq {α : Type _} [DecidableEq α] {β : Type _}
    (l : List (α × β)) (h : (l.map Prod.fst).Nodup) (r : α) :
    l.reverse.lookup r = l.lookup r := by
  induction l with
  | nil => rfl
  | cons p rest ih =>
    obtain ⟨k, v⟩ := p
    simp only [List.map_cons, List.nodup_cons] at h
    rw [List.reverse_cons, lookup_append_eq]
    by_cases hr : r = k
    · subst hr
      have hnone : rest.reverse.lookup r = none := by
        apply not_mem_lookup_none
        rw [List.map_reverse]
        intro hc
        exact h.1 (List.mem_reverse.mp hc)
      rw [hnone]
      simp [List.lookup]
    · have hbeq : (r == k) = false := by simp [hr]
      rw [ih h.2]
      cases hl : rest.lookup r with
      | none => simp [List.lookup, hbeq, hl]
      | some w => simp [List.lookup, hbeq, hl]

theorem snd_nodup_key_unique {α β : Type _} (l : List (α × β))
    (h : (l.map Prod.snd).Nodup) (r1 r2 : α) (w : β)
    (h1 : (r1, w) ∈ l) (h2 : (r2, w) ∈ l) : r1 = r2 := by
  induction l with
  | nil => cases h1
  | cons p rest ih =>
    simp only [List.map_cons, List.nodup_cons] at h
    rcases List.mem_cons.mp h1 with he1 | hm1 <;>
      rcases List.mem_cons.mp h2 with he2 | hm2
    · rw [← he2] at he1
      exact congrArg Prod.fst he1
    · exfalso
      apply h.1
      have hw : w = p.2 := congrArg Prod.snd he1
      rw [hw] at hm2
      exact List.mem_map.mpr ⟨(r2, p.2), hm2, rfl⟩
    · exfalso
      apply h.1
      have hw : w = p.2 := congrArg Prod.snd he2
      rw [hw] at hm1
      exact List.mem_map.mpr ⟨(r1, p.2), hm1, rfl⟩
    · exact ih h.2 hm1 hm2

theorem remapStep_spec (usedInit : List ℤ) (s : RemapState) (raw : ℤ)
    (hu : UsedEq usedInit s) (hmo : MemoOrd usedInit s.memo.reverse)
    (hkeys : (s.memo.map Prod.fst).Nodup)
    (hvals : (s.memo.map Prod.snd).Nodup) :
    UsedEq usedInit (remapStep s raw).1 ∧
    MemoOrd usedInit (remapStep s raw).1.memo.reverse ∧
    ((remapStep s raw).1.memo.map Prod.fst).Nodup ∧
    ((remapStep s raw).1.memo.map Prod.snd).Nodup ∧
    (remapStep s raw).1.memo.lookup raw = some (remapStep s raw).2 ∧
    (∀ r w, s.memo.lookup r = some w →
      (remapStep s raw).1.memo.lookup r = some w) ∧
    ((remapStep s raw).1.memo.reverse.map Prod.fst
      = if raw ∈ s.memo.map Prod.fst then s.memo.reverse.map Prod.fst
        else s.memo.reverse.map Prod.fst ++ [raw]) := by
  cases hl : s.memo.lookup raw with
  | some u =>
    have hstep : remapStep s raw = (s, u) := by simp [remapStep, hl]
    rw [hstep]
    have hmem : raw ∈ s.memo.map Prod.fst := lookup_some_key_mem _ _ _ hl
    exact ⟨hu, hmo, hkeys, hvals, hl, fun r w h => h, by rw [if_pos hmem]⟩
  | none =>
    have hstep : remapStep s raw
        = (⟨(raw, probe s.used raw (s.used.length + 1)) :: s.memo,
            s.used ++ [probe s.used raw (s.used.length + 1)]⟩,
            probe s.used raw (s.used.length + 1)) := by
      simp [remapStep, hl]
    rw [hstep]
    have hnotmem : raw ∉ s.memo.map Prod.fst := lookup_none_not_mem _ _ hl
    have hprobe := probe_spec s.used raw
    unfold IsLeastFreeFrom at hprobe
    set u := probe s.used raw (s.used.length + 1) with hu_def
    have hrev : ((raw, u) :: s.memo).reverse
        = s.memo.reverse ++ [(raw, u)] := by
      simp
    have hvals_used : ∀ w, w ∈ s.memo.map Prod.snd → w ∈ s.used := by
      intro w hw
      unfold UsedEq at hu
      rw [hu]
      refine List.mem_append_right _ ?_
      rw [List.map_reverse, List.mem_reverse]
      exact hw
    refine ⟨?_, ?_, ?_, ?_, ?_, ?_, ?_⟩
    · unfold UsedEq at hu ⊢
      simp only [hrev, List.map_append, List.map_cons, List.map_nil]
      rw [hu, List.append_assoc]
    · intro k hk
      simp only [hrev, List.length_append, List.length_cons,
        List.length_nil] at hk
      by_cases hkl : k < s.memo.reverse.length
      · have htake : ((s.memo.reverse ++ [(raw, u)]).take k)
            = s.memo.reverse.take k :=
          List.take_append_of_le_length (by omega)
        have hgd : (s.memo.reverse ++ [(raw, u)]).getD k (0, 0)
            = s.memo.reverse.getD k (0, 0) := by
          rw [List.getD_append _ _ _ _ hkl]
        rw [hrev, htake, hgd]
        exact hmo k hkl
      · have hke : k = s.memo.reverse.length := by omega
        subst hke
        have htake : ((s.memo.reverse ++ [(raw, u)]).take
              s.memo.reverse.length) = s.memo.reverse :=
          List.take_left _ _
        have hgd : (s.memo.reverse ++ [(raw, u)]).getD
              s.memo.reverse.length (0, 0) = (raw, u) := by
          rw [List.getD_append_right _ _ _ _ (le_refl _)]
          simp
        rw [hrev, htake, hgd]
        unfold UsedEq at hu
        unfold IsLeastFreeFrom
        rw [← hu]
        exact hprobe
    · simp only [List.map_cons, List.nodup_cons]
      exact ⟨hnotmem, hkeys⟩
    · simp only [List.map_cons, List.nodup_cons]
      refine ⟨?_, hvals⟩
      intro hc
      exact hprobe.2.1 (hvals_used u hc)
    · simp [List.lookup]
    · intro r w h
      have hr : r ≠ raw := by
        intro he
        rw [he, hl] at h
        cases h
      have hbeq : (r == raw) = false := by simp [hr]
      simp only [List.lookup, hbeq]
      exact h
    · rw [if_neg hnotmem]
      simp [hrev]

theorem remapRow_spec (usedInit : List ℤ) :
    ∀ (raws : List ℤ) (s : RemapState),
      UsedEq usedInit s → MemoOrd usedInit s.memo.reverse →
      (s.memo.map Prod.fst).Nodup → (s.memo.map Prod.snd).Nodup →
      UsedEq usedInit (remapRow s raws).1 ∧
      MemoOrd usedInit (remapRow s raws).1.memo.reverse ∧
      ((remapRow s raws).1.memo.map Prod.fst).Nodup ∧
      ((remapRow s raws).1.memo.map Prod.snd).Nodup ∧
      (∀ r w, s.memo.lookup r = some w →
        (remapRow s raws).1.memo.lookup r = some w) ∧
      (∀ r, r ∈ raws → ∃ w, (remapRow s raws).1.memo.lookup r = some w) ∧
      ((remapRow s raws).1.memo.reverse.map Prod.fst
        = raws.foldl (fun acc x => if x ∈ acc then acc else acc ++ [x])
            (s.memo.reverse.map Prod.fst)) ∧
      (∀ (S : RemapState),
        (∀ r w, (remapRow s raws).1.memo.lookup r = some w →
          S.memo.lookup r = some w) →
        (remapRow s raws).2
          = raws.map fun r => (S.memo.lookup r).getD 0) := by
  intro raws
  induction raws with
  | nil =>
    intro s h1 h2 h3 h4
    exact ⟨h1, h2, h3, h4, fun r w h => h, by simp, rfl,
      fun S _ => rfl⟩
  | cons r rest ih =>
    intro s h1 h2 h3 h4
    obtain ⟨g1, g2, g3, g4, g5, g6, g7⟩ :=
      remapStep_spec usedInit s r h1 h2 h3 h4
    rcases hstep : remapStep s r with ⟨s1, u⟩
    rw [hstep] at g1 g2 g3 g4 g5 g6 g7
    simp only at g1 g2 g3 g4 g5 g6 g7
    obtain ⟨f1, f2, f3, f4, f5, f6, f7, f8⟩ := ih s1 g1 g2 g3 g4
    rcases hrow : remapRow s1 rest with ⟨s2, us⟩
    rw [hrow] at f1 f2 f3 f4 f5 f6 f7 f8
    simp only at f1 f2 f3 f4 f5 f6 f7 f8
    have hexp : remapRow s (r :: rest) = (s2, u :: us) := by
      simp [remapRow, hstep, hrow]
    rw [hexp]
    simp only
    refine ⟨f1, f2, f3, f4, ?_, ?_, ?_, ?_⟩
    · intro r' w h
      exact f5 r' w (g6 r' w h)
    · intro r' hr'
      rcases List.mem_cons.mp hr' with rfl | hr''
      · exact ⟨u, f5 r' u g5⟩
      · exact f6 r' hr''
    · rw [f7, g7, List.foldl_cons]
      congr 1
      by_cases hm : r ∈ s.memo.map Prod.fst
      · rw [if_pos hm,
          if_pos (by rw [List.map_reverse, List.mem_reverse]; exact hm)]
      · rw [if_neg hm,
          if_neg (by rw [List.map_reverse, List.mem_reverse]; exact hm)]
    · intro S hS
      have hu : S.memo.lookup r = some u := hS r u (f5 r u g5)
      have hrest : us = rest.map fun x => (S.memo.lookup x).getD 0 :=
        f8 S hS
      simp [List.map_cons, hu, hrest]

theorem remapRows_spec (usedInit : List ℤ) :
    ∀ (rows : List (List ℤ)) (s : RemapState),
      UsedEq usedInit s → MemoOrd usedInit s.memo.reverse →
      (s.memo.map Prod.fst).Nodup → (s.memo.map Prod.snd).Nodup →
      UsedEq usedInit (remapRows s rows).1 ∧
      MemoOrd usedInit (remapRows s rows).1.memo.reverse ∧
      ((remapRows s rows).1.memo.map Prod.fst).Nodup ∧
      ((remapRows s rows).1.memo.map Prod.snd).Nodup ∧
      (∀ r w, s.memo.lookup r = some w →
        (remapRows s rows).1.memo.lookup r = some w) ∧
      (∀ r, r ∈ rows.flatten →
        ∃ w, (remapRows s rows).1.memo.lookup r = some w) ∧
      ((remapRows s rows).1.memo.reverse.map Prod.fst
        = rows.flatten.foldl
            (fun acc x => if x ∈ acc then acc else acc ++ [x])
            (s.memo.reverse.map Prod.fst)) ∧
      (∀ (S : RemapState),
        (∀ r w, (remapRows s rows).1.memo.lookup r = some w →
          S.memo.lookup r = some w) →
        (remapRows s rows).2
          = rows.map fun row =>
              row.map fun r => (S.memo.lookup r).getD 0) := by
  intro rows
  induction rows with
  | nil =>
    intro s h1 h2 h3 h4
    exact ⟨h1, h2, h3, h4, fun r w h => h, by simp, rfl,
      fun S _ => rfl⟩
  | cons row rest ih =>
    intro s h1 h2 h3 h4
    obtain ⟨g1, g2, g3, g4, g5, g6, g7, g8⟩ :=
      remapRow_spec usedInit row s h1 h2 h3 h4
    rcases hrow : remapRow s row with ⟨s1, us⟩
    rw [hrow] at g1 g2 g3 g4 g5 g6 g7 g8
    simp only at g1 g2 g3 g4 g5 g6 g7 g8
    obtain ⟨f1, f2, f3, f4, f5, f6, f7, f8⟩ := ih s1 g1 g2 g3 g4
    rcases hrest : remapRows s1 rest with ⟨s2, rowsOut⟩
    rw [hrest] at f1 f2 f3 f4 f5 f6 f7 f8
    simp only at f1 f2 f3 f4 f5 f6 f7 f8
    have hexp : remapRows s (row :: rest) = (s2, us :: rowsOut) := by
      simp [remapRows, hrow, hrest]
    rw [hexp]
    simp only
    refine ⟨f1, f2, f3, f4, ?_, ?_, ?_, ?_⟩
    · intro r w h
      exact f5 r w (g5 r w h)
    · intro r hr
      rw [List.flatten_cons, List.mem_append] at hr
      rcases hr with hr1 | hr2
      · obtain ⟨w, hw⟩ := g6 r hr1
        exact ⟨w, f5 r w hw⟩
      · exact f6 r hr2
    · rw [f7, g7, List.flatten_cons, List.foldl_append]
    · intro S hS
      have hrow_out : us = row.map fun r => (S.memo.lookup r).getD 0 :=
        g8 S fun r w hw => hS r w (f5 r w hw)
      have hrest_out : rowsOut
          = rest.map fun rw₀ => rw₀.map fun r => (S.memo.lookup r).getD 0 :=
        f8 S hS
      simp [hrow_out, hrest_out]

theorem getD_range_map {α : Type _} (f : ℕ → α) (k t : ℕ) (d : α)
    (h : t < k) : ((List.range k).map f).getD t d = f t := by
  rw [List.getD_eq_getElem _ _ (by simpa using h)]
  simp

theorem mem_uidEntries (a : AgentData) (t n : ℕ) (ht : t < a.steps)
    (hn : n < a.agentWidth) : a.unique_ids t n ∈ uidEntries a := by
  unfold uidEntries
  rw [List.mem_flatten]
  refine ⟨(List.range a.agentWidth).map (a.unique_ids t), ?_, ?_⟩
  · exact List.mem_map.mpr ⟨t, List.mem_range.mpr ht, rfl⟩
  · exact List.mem_map.mpr ⟨n, List.mem_range.mpr hn, rfl⟩

theorem mem_foldl_distinct :
    ∀ (l : List ℤ) (acc : List ℤ) (r : ℤ),
      r ∈ l.foldl (fun acc x => if x ∈ acc then acc else acc ++ [x]) acc
        ↔ (r ∈ acc ∨ r ∈ l) := by
  intro l
  induction l with
  | nil => intro acc r; simp
  | cons x rest ih =>
    intro acc r
    rw [List.foldl_cons, ih]
    by_cases hx : x ∈ acc
    · rw [if_pos hx]
      constructor
      · rintro (h | h)
        · exact Or.inl h
        · exact Or.inr (List.mem_cons_of_mem _ h)
      · rintro (h | h)
        · exact Or.inl h
        · rcases List.mem_cons.mp h with rfl | h'
          · exact Or.inl hx
          · exact Or.inr h'
    · rw [if_neg hx]
      constructor
      · rintro (h | h)
        · rcases List.mem_append.mp h with h' | h'
          · exact Or.inl h'
          · simp only [List.mem_singleton] at h'
            exact Or.inr (h' ▸ List.mem_cons_self _ _)
        · exact Or.inr (List.mem_cons_of_mem _ h)
      · rintro (h | h)
        · exact Or.inl (List.mem_append_left _ h)
        · rcases List.mem_cons.mp h with rfl | h'
          · exact Or.inl (List.mem_append_right _ (by simp))
          · exact Or.inr h'

theorem mem_scanDistinct (l : List ℤ) (r : ℤ) :
    r ∈ scanDistinct l ↔ r ∈ l := by
  unfold scanDistinct
  rw [mem_foldl_distinct]
  simp

/-- C2: merging two `AgentData` with equal timestep counts keeps the base
operand's unique IDs unchanged; each incoming raw unique ID is remapped,
memoized per distinct raw value in first-occurrence scan order (`mo`), to
the smallest value `≥` the raw ID not already present among all of the
base's unique-ID array entries and the already-remapped incoming IDs
(`MemoOrd`); the same raw ID gets the same remapped ID at every timestep;
and remapped IDs are disjoint from the base's IDs and pairwise distinct
among the valid slots of each timestep. -/
theorem C2_merge_unique_id_remap (a b : AgentData)
    (hsteps : b.steps = a.steps)
    (hwidthA : ∀ t, t < a.steps → a.n_agents t ≤ a.agentWidth)
    (hbU : ∀ t, t < a.steps → ∀ m n, m < b.n_agents t →
      n < b.n_agents t → m ≠ n →
      b.unique_ids t m ≠ b.unique_ids t n) :
    (append_agents a b).1 = .ok () ∧
    (∀ t n, t < a.steps → n < a.n_agents t →
      (append_agents a b).2.1.unique_ids t n = a.unique_ids t n) ∧
    (∃ mo : List (ℤ × ℤ),
      mo.map Prod.fst = scanDistinct (uidRowsUpTo b a.steps).flatten ∧
      MemoOrd (uidEntries a) mo ∧
      (mo.map Prod.snd).Nodup ∧
      (∀ p ∈ mo, p.2 ∉ uidEntries a) ∧
      (∀ t n, t < a.steps → n < b.n_agents t →
        (append_agents a b).2.1.unique_ids t (a.n_agents t + n)
          = (mo.lookup (b.unique_ids t n)).getD 0)) ∧
    (∀ t t2 n n2, t < a.steps → t2 < a.steps → n < b.n_agents t →
      n2 < b.n_agents t2 → b.unique_ids t n = b.unique_ids t2 n2 →
      (append_agents a b).2.1.unique_ids t (a.n_agents t + n)
        = (append_agents a b).2.1.unique_ids t2 (a.n_agents t2 + n2)) ∧
    (∀ t n m, t < a.steps → n < b.n_agents t → m < a.n_agents t →
      (append_agents a b).2.1.unique_ids t (a.n_agents t + n)
        ≠ (append_agents a b).2.1.unique_ids t m) ∧
    (∀ t n n2, t < a.steps → n < b.n_agents t → n2 < b.n_agents t →
      n ≠ n2 →
      (append_agents a b).2.1.unique_ids t (a.n_agents t + n)
        ≠ (append_agents a b).2.1.unique_ids t (a.n_agents t + n2)) := by
  rcases hR : remapRows ⟨[], uidEntries a⟩ (uidRowsUpTo b a.steps)
    with ⟨fin, newRows⟩
  have happ1 : (append_agents a b).1 = .ok () := by
    simp [append_agents, hsteps, hR]
  have happU : (append_agents a b).2.1.unique_ids
      = rowsArr ((List.range a.steps).map
          fun t => uidRow a t ++ newRows.getD t []) := by
    simp [append_agents, hsteps, hR]
  have hU0 : UsedEq (uidEntries a) ⟨[], uidEntries a⟩ := by
    simp [UsedEq]
  have hM0 : MemoOrd (uidEntries a)
      (RemapState.memo ⟨[], uidEntries a⟩).reverse := by
    intro k hk
    simp at hk
  have hK0 : ((RemapState.memo ⟨[], uidEntries a⟩).map Prod.fst).Nodup := by
    simp
  have hV0 : ((RemapState.memo ⟨[], uidEntries a⟩).map Prod.snd).Nodup := by
    simp
  obtain ⟨i1, i2, i3, i4, i5, i6, i7, i8⟩ :=
    remapRows_spec (uidEntries a) (uidRowsUpTo b a.steps)
      ⟨[], uidEntries a⟩ hU0 hM0 hK0 hV0
  rw [hR] at i1 i2 i3 i4 i5 i6 i7 i8
  simp only at i1 i2 i3 i4 i5 i6 i7 i8
  have houtputs : newRows = (uidRowsUpTo b a.steps).map
      fun row => row.map fun r => (fin.memo.lookup r).getD 0 :=
    i8 fin fun r w h => h
  have hrowsLen : ∀ t, t < a.steps →
      newRows.getD t [] = (uidRow b t).map
        fun r => (fin.memo.lookup r).getD 0 := by
    intro t ht
    rw [houtputs]
    unfold uidRowsUpTo
    rw [List.map_map]
    exact getD_range_map _ _ _ _ ht
  have hslotBase : ∀ t n, t < a.steps → n < a.n_agents t →
      (append_agents a b).2.1.unique_ids t n = a.unique_ids t n := by
    intro t n ht hn
    rw [happU]
    unfold rowsArr
    rw [getD_range_map _ _ _ _ ht]
    have hlen : (uidRow a t).length = a.n_agents t := by simp [uidRow]
    rw [List.getD_append _ _ _ _ (by omega)]
    unfold uidRow
    exact getD_range_map _ _ _ _ hn
  have hslotNew : ∀ t n, t < a.steps → n < b.n_agents t →
      (append_agents a b).2.1.unique_ids t (a.n_agents t + n)
        = (fin.memo.lookup (b.unique_ids t n)).getD 0 := by
    intro t n ht hn
    rw [happU]
    unfold rowsArr
    rw [getD_range_map _ _ _ _ ht]
    have hlen : (uidRow a t).length = a.n_agents t := by simp [uidRow]
    rw [List.getD_append_right _ _ _ _ (by omega)]
    have hidx : a.n_agents t + n - (uidRow a t).length = n := by
      rw [hlen]
      omega
    rw [hidx, hrowsLen t ht]
    have hblen : ((uidRow b t).map
        fun r => (fin.memo.lookup r).getD 0).length = b.n_agents t := by
      simp [uidRow]
    rw [List.getD_eq_getElem _ _ (by omega)]
    simp [uidRow]
  have hkey : ∀ t n, t < a.steps → n < b.n_agents t →
      ∃ w, fin.memo.lookup (b.unique_ids t n) = some w := by
    intro t n ht hn
    apply i6
    rw [List.mem_flatten]
    refine ⟨uidRow b t, ?_, ?_⟩
    · exact List.mem_map.mpr ⟨t, List.mem_range.mpr ht, rfl⟩
    · exact List.mem_map.mpr ⟨n, List.mem_range.mpr hn, rfl⟩
  have hnotbase : ∀ r w, fin.memo.lookup r = some w →
      w ∉ uidEntries a := by
    intro r w hw
    have hmemRev : (r, w) ∈ fin.memo.reverse :=
      List.mem_reverse.mpr (lookup_some_mem _ _ _ hw)
    obtain ⟨k, hk, hgd⟩ :=
      (mem_iff_getD fin.memo.reverse (0, 0) (r, w)).mp hmemRev
    have hmo := i2 k hk
    unfold IsLeastFreeFrom at hmo
    rw [hgd] at hmo
    intro hc
    exact hmo.2.1 (List.mem_append_left _ hc)
  have hinj : ∀ r1 r2 w, fin.memo.lookup r1 = some w →
      fin.memo.lookup r2 = some w → r1 = r2 := by
    intro r1 r2 w hw1 hw2
    exact snd_nodup_key_unique fin.memo i4 r1 r2 w
      (lookup_some_mem _ _ _ hw1) (lookup_some_mem _ _ _ hw2)
  refine ⟨happ1, hslotBase, ?_, ?_, ?_, ?_⟩
  · refine ⟨fin.memo.reverse, ?_, i2, ?_, ?_, ?_⟩
    · rw [i7]
      rfl
    · rw [List.map_reverse]
      exact List.nodup_reverse.mpr i4
    · intro p hp
      obtain ⟨k, hk, hgd⟩ :=
        (mem_iff_getD fin.memo.reverse (0, 0) p).mp hp
      have hmo := i2 k hk
      unfold IsLeastFreeFrom at hmo
      rw [hgd] at hmo
      intro hc
      exact hmo.2.1 (List.mem_append_left _ hc)
    · intro t n ht hn
      rw [hslotNew t n ht hn, lookup_reverse_eq fin.memo i3]
  · intro t t2 n n2 ht ht2 hn hn2 hraw
    rw [hslotNew t n ht hn, hslotNew t2 n2 ht2 hn2, hraw]
  · intro t n m ht hn hm
    obtain ⟨w, hw⟩ := hkey t n ht hn
    rw [hslotNew t n ht hn, hslotBase t m ht hm, hw]
    intro heq
    apply hnotbase _ w hw
    simp only [Option.getD_some] at heq
    rw [heq]
    exact mem_uidEntries a t m ht (by have := hwidthA t ht; omega)
  · intro t n n2 ht hn hn2 hne
    obtain ⟨w1, hw1⟩ := hkey t n ht hn
    obtain ⟨w2, hw2⟩ := hkey t n2 ht hn2
    rw [hslotNew t n ht hn, hslotNew t n2 ht hn2, hw1, hw2]
    simp only [Option.getD_some]
    intro heq
    subst heq
    exact hbU t ht n n2 hn hn2 hne (hinj _ _ _ hw1 hw2)

/-- Witness for C2: the spec's example, base IDs `{1, 2}` merged with
incoming IDs `{1, 3}`. -/
theorem C2_merge_unique_id_remap_witness :
    mergeWitnessB.steps = mergeWitnessA.steps ∧
    (∀ t, t < mergeWitnessA.steps →
      mergeWitnessA.n_agents t ≤ mergeWitnessA.agentWidth) ∧
    (∀ t, t < mergeWitnessA.steps → ∀ m n,
      m < mergeWitnessB.n_agents t → n < mergeWitnessB.n_agents t →
      m ≠ n → mergeWitnessB.unique_ids t m ≠ mergeWitnessB.unique_ids t n) ∧
    ((append_agents mergeWitnessA mergeWitnessB).1 = .ok () ∧
    (∀ t n, t < mergeWitnessA.steps → n < mergeWitnessA.n_agents t →
      (append_agents mergeWitnessA mergeWitnessB).2.1.unique_ids t n
        = mergeWitnessA.unique_ids t n) ∧
    (∃ mo : List (ℤ × ℤ),
      mo.map Prod.fst
        = scanDistinct (uidRowsUpTo mergeWitnessB
            mergeWitnessA.steps).flatten ∧
      MemoOrd (uidEntries mergeWitnessA) mo ∧
      (mo.map Prod.snd).Nodup ∧
      (∀ p ∈ mo, p.2 ∉ uidEntries mergeWitnessA) ∧
      (∀ t n, t < mergeWitnessA.steps → n < mergeWitnessB.n_agents t →
        (append_agents mergeWitnessA mergeWitnessB).2.1.unique_ids t
            (mergeWitnessA.n_agents t + n)
          = (mo.lookup (mergeWitnessB.unique_ids t n)).getD 0)) ∧
    (∀ t t2 n n2, t < mergeWitnessA.steps → t2 < mergeWitnessA.steps →
      n < mergeWitnessB.n_agents t → n2 < mergeWitnessB.n_agents t2 →
      mergeWitnessB.unique_ids t n = mergeWitnessB.unique_ids t2 n2 →
      (append_agents mergeWitnessA mergeWitnessB).2.1.unique_ids t
          (mergeWitnessA.n_agents t + n)
        = (append_agents mergeWitnessA mergeWitnessB).2.1.unique_ids t2
            (mergeWitnessA.n_agents t2 + n2)) ∧
    (∀ t n m, t < mergeWitnessA.steps → n < mergeWitnessB.n_agents t →
      m < mergeWitnessA.n_agents t →
      (append_agents mergeWitnessA mergeWitnessB).2.1.unique_ids t
          (mergeWitnessA.n_agents t + n)
        ≠ (append_agents mergeWitnessA mergeWitnessB).2.1.unique_ids t m) ∧
    (∀ t n n2, t < mergeWitnessA.steps → n < mergeWitnessB.n_agents t →
      n2 < mergeWitnessB.n_agents t → n ≠ n2 →
      (append_agents mergeWitnessA mergeWitnessB).2.1.unique_ids t
          (mergeWitnessA.n_agents t + n)
        ≠ (append_agents mergeWitnessA mergeWitnessB).2.1.unique_ids t
            (mergeWitnessA.n_agents t + n2))) :=
  ⟨by decide,
   by
     intro t ht
     have ht0 : t = 0 := by
       have hs : mergeWitnessA.steps = 1 := by decide
       omega
     subst ht0
     decide,
   by
     intro t ht m n hm hn hne
     have ht0 : t = 0 := by
       have hs : mergeWitnessA.steps = 1 := by decide
       omega
     subst ht0
     have hm2 : m < 2 := by
       have hb : mergeWitnessB.n_agents 0 = 2 := by decide
       omega
     have hn2 : n < 2 := by
       have hb : mergeWitnessB.n_agents 0 = 2 := by decide
       omega
     interval_cases m <;> interval_cases n <;> revert hne <;> decide,
   C2_merge_unique_id_remap mergeWitnessA mergeWitnessB (by decide)
     (by
       intro t ht
       have ht0 : t = 0 := by
         have hs : mergeWitnessA.steps = 1 := by decide
         omega
       subst ht0
       decide)
     (by
       intro t ht m n hm hn hne
       have ht0 : t = 0 := by
         have hs : mergeWitnessA.steps = 1 := by decide
         omega
       subst ht0
       have hm2 : m < 2 := by
         have hb : mergeWitnessB.n_agents 0 = 2 := by decide
         omega
       have hn2 : n < 2 := by
         have hb : mergeWitnessB.n_agents 0 = 2 := by decide
         omega
       interval_cases m <;> interval_cases n <;> revert hne <;> decide)⟩

theorem readSubLoop_spec (frame : List ℚ) (i1 : ℤ) (count : ℕ)
    (g : ℕ → ℚ)
    (hread : ∀ j, j < count → pyGet frame (i1 + 1 + (j : ℤ)) = some (g j)) :
    ∀ (rem j₀ p₀ d₀ : ℕ) (acc : ℕ → Fin 3 → ℚ),
      j₀ + rem = count → j₀ = 3 * p₀ + d₀ → d₀ < 3 →
      readSubLoop frame i1 rem j₀ p₀ d₀ acc
        = some (fun (p : ℕ) (d : Fin 3) =>
            if j₀ ≤ 3 * p + (d : ℕ) ∧ 3 * p + (d : ℕ) < count
            then g (3 * p + (d : ℕ)) else acc p d) := by
  intro rem
  induction rem with
  | zero =>
    intro j₀ p₀ d₀ acc hj hpd hd
    unfold readSubLoop
    congr 1
    funext p d
    rw [if_neg (by omega)]
  | succ rem ih =>
    intro j₀ p₀ d₀ acc hj hpd hd
    have hjlt : j₀ < count := by omega
    have hv := hread j₀ hjlt
    unfold readSubLoop
    simp only [hv]
    have hacc : ∀ (acc' : ℕ → Fin 3 → ℚ),
        acc' = (fun (p' : ℕ) (d' : Fin 3) => if p' = p₀ ∧ ((d' : ℕ)) = d₀
          then g j₀ else acc p' d') →
        (fun (p : ℕ) (d : Fin 3) =>
          if j₀ + 1 ≤ 3 * p + (d : ℕ) ∧ 3 * p + (d : ℕ) < count
          then g (3 * p + (d : ℕ)) else acc' p d)
        = (fun (p : ℕ) (d : Fin 3) =>
          if j₀ ≤ 3 * p + (d : ℕ) ∧ 3 * p + (d : ℕ) < count
          then g (3 * p + (d : ℕ)) else acc p d) := by
      intro acc' hacc'
      funext p d
      have hd3 : (d : ℕ) < 3 := d.isLt
      by_cases h1 : j₀ + 1 ≤ 3 * p + (d : ℕ) ∧ 3 * p + (d : ℕ) < count
      · rw [if_pos h1, if_pos ⟨by omega, h1.2⟩]
      · rw [if_neg h1, hacc']
        by_cases h2 : p = p₀ ∧ ((d : ℕ)) = d₀
        · have he : 3 * p + (d : ℕ) = j₀ := by omega
          rw [if_pos ⟨by omega, by omega⟩]
          simp only [if_pos h2, he]
        · have hne : 3 * p + (d : ℕ) ≠ j₀ := by
            intro hc
            exact h2 ⟨by omega, by omega⟩
          rw [if_neg (by omega)]
          exact if_neg h2
    by_cases hdc : d₀ + 1 > 2
    · rw [if_pos hdc]
      rw [ih (j₀ + 1) (p₀ + 1) 0 _ (by omega) (by omega) (by omega)]
      congr 1
      exact hacc _ rfl
    · rw [if_neg hdc]
      rw [ih (j₀ + 1) p₀ (d₀ + 1) _ (by omega) (by omega) (by omega)]
      congr 1
      exact hacc _ rfl

theorem readSubLoop_full (frame : List ℚ) (i1 : ℤ) (scalars : List ℚ)
    (hread : ∀ j, j < scalars.length →
      pyGet frame (i1 + 1 + (j : ℤ)) = some (scalars.getD j 0)) :
    readSubLoop frame i1 scalars.length 0 0 0 (fun _ _ => 0)
      = some (fun (p : ℕ) (d : Fin 3) =>
          scalars.getD (3 * p + (d : ℕ)) 0) := by
  rw [readSubLoop_spec frame i1 scalars.length (fun j => scalars.getD j 0)
    hread scalars.length 0 0 0 _ (by omega) (by omega) (by omega)]
  congr 1
  funext p d
  by_cases h : 3 * p + (d : ℕ) < scalars.length
  · rw [if_pos ⟨by omega, h⟩]
  · rw [if_neg (by omega), List.getD_eq_default _ _ (by omega)]

theorem pyInt_natCast_div_three (n : ℕ) :
    pyInt ((n : ℚ) / 3) = (n : ℤ) / 3 := by
  unfold pyInt
  rw [if_pos (by positivity), floor_div_three]

theorem get?_encodeRecord_sp (r : AgentRecord) (rest : List ℚ) (j : ℕ)
    (hj : j < r.spScalars.length) :
    (encodeRecord r ++ rest).get? (11 + j)
      = some (r.spScalars.getD j 0) := by
  have hs : encodeRecord r ++ rest
      = [r.viz_type, r.unique_id, r.type_id, r.posx, r.posy, r.posz,
         r.rotx, r.roty, r.rotz, r.radius, (r.spScalars.length : ℚ)]
        ++ (r.spScalars ++ rest) := by
    simp [encodeRecord]
  rw [hs, List.get?_append_right (by simp)]
  have hidx : 11 + j
      - ([r.viz_type, r.unique_id, r.type_id, r.posx, r.posy, r.posz,
          r.rotx, r.roty, r.rotz, r.radius,
          ((r.spScalars.length : ℕ) : ℚ)]).length = j := by
    simp
  rw [hidx, List.get?_append hj, List.get?_eq_getElem?,
    List.getElem?_eq_getElem hj, List.getD_eq_getElem _ _ hj]

theorem decodeLoop_at_end (frame : List ℚ) (maxSp : ℤ) (f : ℕ)
    (acc : List DecRecord) :
    decodeLoop frame maxSp (f + 1) ((frame.length : ℤ)) acc = some acc := by
  unfold decodeLoop
  rw [if_neg (by omega)]

theorem decodeLoop_step (pre rest : List ℚ) (r : AgentRecord) (maxSp : ℤ)
    (f : ℕ) (acc : List DecRecord)
    (hmul : r.spScalars.length % 3 = 0)
    (hreg : maxSp < 1 → r.spScalars = []) :
    decodeLoop (pre ++ (encodeRecord r ++ rest)) maxSp (f + 1)
        ((pre.length : ℤ)) acc
      = decodeLoop (pre ++ (encodeRecord r ++ rest)) maxSp f
          (((pre ++ encodeRecord r).length : ℤ)) (acc ++ [decRecOf r]) := by
  have hrl := encodeRecord_length r
  have hlt : (pre.length : ℤ) + ((NSP_INDEX : ℕ) : ℤ)
      < ((pre ++ (encodeRecord r ++ rest)).length : ℤ) := by
    have h10 : ((NSP_INDEX : ℕ) : ℤ) = (10 : ℤ) := rfl
    rw [h10]
    simp only [List.length_append]
    push_cast
    omega
  have h0 : pyGet (pre ++ (encodeRecord r ++ rest))
      ((pre.length : ℤ) + ((VIZ_TYPE_INDEX : ℕ) : ℤ)) = some r.viz_type := by
    rw [pyGet_append_at]
    rfl
  have h1 : pyGet (pre ++ (encodeRecord r ++ rest))
      ((pre.length : ℤ) + ((UID_INDEX : ℕ) : ℤ)) = some r.unique_id := by
    rw [pyGet_append_at]
    rfl
  have h2 : pyGet (pre ++ (encodeRecord r ++ rest))
      ((pre.length : ℤ) + ((TID_INDEX : ℕ) : ℤ)) = some r.type_id := by
    rw [pyGet_append_at]
    rfl
  have h3 : pyGet (pre ++ (encodeRecord r ++ rest))
      ((pre.length : ℤ) + ((POSX_INDEX : ℕ) : ℤ)) = some r.posx := by
    rw [pyGet_append_at]
    rfl
  have h4 : pyGet (pre ++ (encodeRecord r ++ rest))
      ((pre.length : ℤ) + ((POSY_INDEX : ℕ) : ℤ)) = some r.posy := by
    rw [pyGet_append_at]
    rfl
  have h5 : pyGet (pre ++ (encodeRecord r ++ rest))
      ((pre.length : ℤ) + ((POSZ_INDEX : ℕ) : ℤ)) = some r.posz := by
    rw [pyGet_append_at]
    rfl
  have h6 : pyGet (pre ++ (encodeRecord r ++ rest))
      ((pre.length : ℤ) + ((ROTX_INDEX : ℕ) : ℤ)) = some r.rotx := by
    rw [pyGet_append_at]
    rfl
  have h7 : pyGet (pre ++ (encodeRecord r ++ rest))
      ((pre.length : ℤ) + ((ROTY_INDEX : ℕ) : ℤ)) = some r.roty := by
    rw [pyGet_append_at]
    rfl
  have h8 : pyGet (pre ++ (encodeRecord r ++ rest))
      ((pre.length : ℤ) + ((ROTZ_INDEX : ℕ) : ℤ)) = some r.rotz := by
    rw [pyGet_append_at]
    rfl
  have h9 : pyGet (pre ++ (encodeRecord r ++ rest))
      ((pre.length : ℤ) + ((R_INDEX : ℕ) : ℤ)) = some r.radius := by
    rw [pyGet_append_at]
    rfl
  have h10 : pyGet (pre ++ (encodeRecord r ++ rest))
      ((pre.length : ℤ) + ((NSP_INDEX : ℕ) : ℤ))
      = some ((r.spScalars.length : ℚ)) := by
    rw [pyGet_append_at]
    exact encodeRecord_nsp r rest
  by_cases hsp : maxSp < 1
  · have hempty := hreg hsp
    have hrec : decRecOf r
        = { viz := r.viz_type, uid := r.unique_id, tid := r.type_id,
            pos := ![r.posx, r.posy, r.posz],
            rot := ![r.rotx, r.roty, r.rotz], radius := r.radius,
            nsp := 0, sp := fun _ _ => 0 } := by
      unfold decRecOf recPos recRot recSp
      rw [hempty]
      simp
    have hidx : (pre.length : ℤ) + ((NSP_INDEX : ℕ) : ℤ)
        + ((SP_INDEX - NSP_INDEX : ℕ) : ℤ)
        = (((pre ++ encodeRecord r).length : ℕ) : ℤ) := by
      have hn : ((NSP_INDEX : ℕ) : ℤ) = (10 : ℤ) := rfl
      have hs : ((SP_INDEX - NSP_INDEX : ℕ) : ℤ) = (1 : ℤ) := rfl
      rw [hn, hs]
      simp only [List.length_append]
      rw [hrl, hempty]
      simp only [List.length_nil]
      push_cast
      omega
    simp only [decodeLoop, if_pos hlt, h0, h1, h2, h3, h4, h5, h6, h7, h8,
      h9, Option.bind_eq_bind, Option.some_bind, if_pos hsp, hidx, hrec]
  · have hcount : (pyInt ((r.spScalars.length : ℚ))).toNat
        = r.spScalars.length := by
      rw [pyInt_natCast]
      simp
    have hread : ∀ j, j < r.spScalars.length →
        pyGet (pre ++ (encodeRecord r ++ rest))
          ((pre.length : ℤ) + ((NSP_INDEX : ℕ) : ℤ) + 1 + (j : ℤ))
          = some (r.spScalars.getD j 0) := by
      intro j hj
      have hc : (pre.length : ℤ) + ((NSP_INDEX : ℕ) : ℤ) + 1 + (j : ℤ)
          = (pre.length : ℤ) + (((11 + j : ℕ)) : ℤ) := by
        have hn : ((NSP_INDEX : ℕ) : ℤ) = (10 : ℤ) := rfl
        rw [hn]
        push_cast
        ring
      rw [hc, pyGet_append_at, pyGet_nonneg]
      exact get?_encodeRecord_sp r rest j hj
    have hsub : readSubLoop (pre ++ (encodeRecord r ++ rest))
        ((pre.length : ℤ) + ((NSP_INDEX : ℕ) : ℤ))
        ((pyInt ((r.spScalars.length : ℚ))).toNat) 0 0 0 (fun _ _ => 0)
        = some (recSp r) := by
      rw [hcount]
      exact readSubLoop_full _ _ _ hread
    have hrec : decRecOf r
        = { viz := r.viz_type, uid := r.unique_id, tid := r.type_id,
            pos := ![r.posx, r.posy, r.posz],
            rot := ![r.rotx, r.roty, r.rotz], radius := r.radius,
            nsp := pyInt ((r.spScalars.length : ℚ) / 3),
            sp := recSp r } := by
      unfold decRecOf recPos recRot
      rw [pyInt_natCast_div_three]
    have hidx : (pre.length : ℤ) + ((NSP_INDEX : ℕ) : ℤ)
        + pyInt ((r.spScalars.length : ℚ))
        + ((SP_INDEX - NSP_INDEX : ℕ) : ℤ)
        = (((pre ++ encodeRecord r).length : ℕ) : ℤ) := by
      have hn : ((NSP_INDEX : ℕ) : ℤ) = (10 : ℤ) := rfl
      have hs : ((SP_INDEX - NSP_INDEX : ℕ) : ℤ) = (1 : ℤ) := rfl
      rw [hn, hs, pyInt_natCast]
      simp only [List.length_append]
      rw [hrl]
      push_cast
      omega
    simp only [decodeLoop, if_pos hlt, h0, h1, h2, h3, h4, h5, h6, h7, h8,
      h9, h10, Option.bind_eq_bind, Option.some_bind, if_neg hsp, hsub,
      hidx, hrec]

theorem decodeLoop_records (maxSp : ℤ) (recs : List AgentRecord) :
    ∀ (pre : List ℚ) (f : ℕ) (acc : List DecRecord),
      (∀ r ∈ recs, r.spScalars.length % 3 = 0) →
      (maxSp < 1 → ∀ r ∈ recs, r.spScalars = []) →
      decodeLoop (pre ++ encodeFrame recs) maxSp (f + recs.length)
          ((pre.length : ℤ)) acc
        = decodeLoop (pre ++ encodeFrame recs) maxSp f
            (((pre ++ encodeFrame recs).length : ℤ))
            (acc ++ recs.map decRecOf) := by
  induction recs with
  | nil =>
    intro pre f acc _ _
    simp [encodeFrame]
  | cons r rest ih =>
    intro pre f acc hmul hreg
    have hef : encodeFrame (r :: rest)
        = encodeRecord r ++ encodeFrame rest := by
      simp [encodeFrame]
    rw [hef]
    have hfl : f + (r :: rest).length = (f + rest.length) + 1 := by
      simp only [List.length_cons]
      omega
    rw [hfl, decodeLoop_step pre (encodeFrame rest) r maxSp
      (f + rest.length) acc (hmul r (by simp))
      (fun h => hreg h r (by simp))]
    have hih := ih (pre ++ encodeRecord r) f (acc ++ [decRecOf r])
      (fun r' hr' => hmul r' (by simp [hr']))
      (fun h r' hr' => hreg h r' (by simp [hr']))
    rw [List.append_assoc pre (encodeRecord r) (encodeFrame rest)] at hih
    rw [hih]
    congr 1 <;> simp [List.append_assoc]

theorem decodeFrame_encoded (maxSp : ℤ) (recs : List AgentRecord)
    (hmul : ∀ r ∈ recs, r.spScalars.length % 3 = 0)
    (hreg : maxSp < 1 → ∀ r ∈ recs, r.spScalars = []) :
    decodeLoop (encodeFrame recs) maxSp ((encodeFrame recs).length + 1)
        0 []
      = some (recs.map decRecOf) := by
  have hlen := encodeFrame_length_ge recs
  have hfuel : (encodeFrame recs).length + 1
      = ((encodeFrame recs).length - recs.length + 1) + recs.length := by
    omega
  have hrec := decodeLoop_records maxSp recs []
    ((encodeFrame recs).length - recs.length + 1) [] hmul hreg
  simp only [List.nil_append, List.length_nil, Nat.cast_zero] at hrec
  rw [hfuel, hrec, decodeLoop_at_end]

theorem decode_mapM (maxSp : ℤ) (frames : List (List AgentRecord))
    (hmul : ∀ fr ∈ frames, ∀ r ∈ fr, r.spScalars.length % 3 = 0)
    (hreg : maxSp < 1 → ∀ fr ∈ frames, ∀ r ∈ fr, r.spScalars = []) :
    (frames.map encodeFrame).mapM
        (fun fdata => decodeLoop fdata maxSp (fdata.length + 1) 0 [])
      = some (frames.map fun fr => fr.map decRecOf) := by
  induction frames with
  | nil => rfl
  | cons fr rest ih =>
    have hih := ih (fun fr' hfr' r hr => hmul fr' (by simp [hfr']) r hr)
      (fun h fr' hfr' r hr => hreg h fr' (by simp [hfr']) r hr)
    simp only [List.map_cons, List.mapM_cons,
      decodeFrame_encoded maxSp fr (hmul fr (by simp))
        (fun h => hreg h fr (by simp)),
      hih, Option.bind_eq_bind, Option.some_bind, Option.pure_def]

theorem le_maxPointsFoldInit (recs : List AgentRecord) :
    ∀ maxS : ℤ, maxS ≤ maxPointsFold recs maxS := by
  induction recs with
  | nil => intro maxS; exact le_refl _
  | cons r rest ih =>
    intro maxS
    exact le_trans (le_max_left _ _) (ih (max maxS (recPoints r)))

theorem recPoints_le_maxPointsFold (recs : List AgentRecord) :
    ∀ (maxS : ℤ) (r : AgentRecord), r ∈ recs →
      recPoints r ≤ maxPointsFold recs maxS := by
  induction recs with
  | nil => intro maxS r hr; cases hr
  | cons r0 rest ih =>
    intro maxS r hr
    rcases List.mem_cons.mp hr with rfl | hr'
    · exact le_trans (le_max_right _ _)
        (le_maxPointsFoldInit rest (max maxS (recPoints r)))
    · exact ih (max maxS (recPoints r0)) r hr'

theorem le_maxPointsBundleInit (frames : List (List AgentRecord)) :
    ∀ m0 : ℤ, m0 ≤ frames.foldl (fun m f => maxPointsFold f m) m0 := by
  induction frames with
  | nil => intro m0; exact le_refl _
  | cons f0 rest ih =>
    intro m0
    exact le_trans (le_maxPointsFoldInit f0 m0) (ih (maxPointsFold f0 m0))

theorem recPoints_le_maxPointsBundle (frames : List (List AgentRecord)) :
    ∀ (m0 : ℤ) (fr : List AgentRecord), fr ∈ frames → ∀ r ∈ fr,
      recPoints r ≤ frames.foldl (fun m f => maxPointsFold f m) m0 := by
  induction frames with
  | nil => intro m0 fr hfr; cases hfr
  | cons f0 rest ih =>
    intro m0 fr hfr r hr
    rcases List.mem_cons.mp hfr with rfl | hfr'
    · exact le_trans (recPoints_le_maxPointsFold fr m0 r hr)
        (le_maxPointsBundleInit rest (maxPointsFold fr m0))
    · exact ih (maxPointsFold f0 m0) fr hfr' r hr

theorem spScalars_nil_of_small_max (frames : List (List AgentRecord))
    (hmul : ∀ fr ∈ frames, ∀ r ∈ fr, r.spScalars.length % 3 = 0)
    (hlt : maxPointsBundle frames < 1) :
    ∀ fr ∈ frames, ∀ r ∈ fr, r.spScalars = [] := by
  intro fr hfr r hr
  have h1 : recPoints r ≤ maxPointsBundle frames :=
    recPoints_le_maxPointsBundle frames 0 fr hfr r hr
  have h2 := hmul fr hfr r hr
  have h3 : r.spScalars.length = 0 := by
    unfold recPoints at h1
    unfold maxPointsBundle at h1 hlt
    omega
  exact List.length_eq_zero.mp h3

theorem getD_map_decRecOf (frames : List (List AgentRecord)) (t : ℕ) :
    (frames.map fun fr => fr.map decRecOf).getD t []
      = (frames.getD t []).map decRecOf := by
  induction frames generalizing t with
  | nil => cases t <;> rfl
  | cons f rest ih =>
    cases t with
    | zero => rfl
    | succ k => simpa using ih k

theorem getD_map_lt {α β : Type _} (f : α → β) (l : List α) (n : ℕ)
    (d : β) (d0 : α) (h : n < l.length) :
    (l.map f).getD n d = f (l.getD n d0) := by
  rw [List.getD_eq_getElem _ _ (by simpa using h),
    List.getD_eq_getElem _ _ h]
  simp

theorem getD_map_ge {α β : Type _} (f : α → β) (l : List α) (n : ℕ)
    (d : β) (h : l.length ≤ n) :
    (l.map f).getD n d = d := by
  rw [List.getD_eq_default]
  simpa using h

theorem getD_map_map_lt {α β γ : Type _} (f : α → β) (g : β → γ)
    (l : List α) (n : ℕ) (d : γ) (d0 : α) (h : n < l.length) :
    ((l.map f).map g).getD n d = g (f (l.getD n d0)) := by
  rw [getD_map_lt g (l.map f) n d (f d0) (by simpa using h),
    getD_map_lt f l n (f d0) d0 h]

/-- C6: on every well-formed packed buffer whose type IDs all resolve in
the supplied table, `from_buffer_data` succeeds, and the decoded
`AgentData`'s dense arrays are sized exactly to the scanned dimensions
`(total_steps, max_agents, max_subpoints)`; `n_agents[t]` equals the
number of records walked in timestep `t`; every slot beyond the walked
records keeps its allocation default (`radii` default `1`, everything
else zero); every walked slot carries its record's fields — in
particular records with no subpoints and all-zero rotations decode
without failure into all-zero `rotations`/`subpoints` rows, absence
being zeros, never an error. -/
theorem C6_decode_allocation_and_defaults
    (mapping : List (ℤ × String)) (btimes : List ℚ)
    (frames : List (List AgentRecord))
    (hmul : ∀ fr ∈ frames, ∀ r ∈ fr, r.spScalars.length % 3 = 0)
    (hmap : ∀ t n : ℕ, t < frames.length → n < maxAgentsFold frames →
      (mapping.lookup (pyInt (((frames.getD t []).map
        AgentRecord.type_id).getD n 0))).isSome) :
    ∃ ad : AgentData,
      from_buffer_data ⟨mapping, btimes, frames.map encodeFrame⟩ = some ad
      ∧ ad.steps = frames.length
      ∧ ad.agentWidth = maxAgentsFold frames
      ∧ ad.spWidth = (maxPointsBundle frames).toNat
      ∧ (∀ t, ad.n_agents t = (frames.getD t []).length)
      ∧ (∀ t n, (frames.getD t []).length ≤ n →
          ad.radii t n = 1 ∧ ad.viz_types t n = 0 ∧ ad.unique_ids t n = 0
          ∧ ad.positions t n = (fun _ => 0) ∧ ad.rotations t n = (fun _ => 0)
          ∧ ad.n_subpoints t n = 0 ∧ ad.subpoints t n = (fun _ _ => 0))
      ∧ (∀ t n, n < (frames.getD t []).length →
          ad.viz_types t n = ((frames.getD t []).getD n dummyRec).viz_type
          ∧ ad.unique_ids t n
              = pyInt ((frames.getD t []).getD n dummyRec).unique_id
          ∧ ad.positions t n = recPos ((frames.getD t []).getD n dummyRec)
          ∧ ad.rotations t n = recRot ((frames.getD t []).getD n dummyRec)
          ∧ ad.radii t n = ((frames.getD t []).getD n dummyRec).radius
          ∧ ad.n_subpoints t n
              = (((frames.getD t []).getD n dummyRec).spScalars.length : ℤ) / 3
          ∧ ad.subpoints t n = recSp ((frames.getD t []).getD n dummyRec))
      ∧ ad.type_mapping = none := by
  have hreg : maxPointsBundle frames < 1 → ∀ fr ∈ frames, ∀ r ∈ fr,
      r.spScalars = [] := fun hlt => spScalars_nil_of_small_max frames hmul hlt
  have hdims : get_buffer_data_dimensions (frames.map encodeFrame)
      = some (frames.length, maxAgentsFold frames, maxPointsBundle frames) := by
    unfold get_buffer_data_dimensions
    rw [scanBundle_encoded frames 0 0]
    simp [maxAgentsFold, maxPointsBundle]
  have hmapM := decode_mapM (maxPointsBundle frames) frames hmul hreg
  have hres : ∃ res,
      get_type_names
        ((List.range frames.length).map fun t =>
          (List.range (maxAgentsFold frames)).map fun n =>
            pyInt ((((frames.map fun fr =>
              fr.map decRecOf).getD t []).map DecRecord.tid).getD n 0))
        mapping = some res := by
    rw [← Option.ne_none_iff_exists']
    rw [Ne, get_type_names_none_iff]
    rintro ⟨row, hrow, hnone⟩
    rw [List.mem_map] at hrow
    obtain ⟨t, htmem, rfl⟩ := hrow
    have ht : t < frames.length := List.mem_range.mp htmem
    rw [lookupRow_none_iff] at hnone
    obtain ⟨tid, htid, hnoneL⟩ := hnone
    rw [List.mem_map] at htid
    obtain ⟨n, hnmem, rfl⟩ := htid
    have hn : n < maxAgentsFold frames := List.mem_range.mp hnmem
    have harg : ((((frames.map fun fr =>
          fr.map decRecOf).getD t []).map DecRecord.tid).getD n 0)
        = (((frames.getD t []).map AgentRecord.type_id).getD n 0) := by
      rw [getD_map_decRecOf]
      by_cases hcase : n < (frames.getD t []).length
      · rw [getD_map_map_lt decRecOf DecRecord.tid _ n 0 dummyRec hcase,
          getD_map_lt AgentRecord.type_id _ n 0 dummyRec hcase]
        rfl
      · rw [getD_map_ge DecRecord.tid _ n 0
            (by simpa using Nat.le_of_not_lt hcase),
          getD_map_ge AgentRecord.type_id _ n 0 (Nat.le_of_not_lt hcase)]
    rw [harg] at hnoneL
    have hsm := hmap t n ht hn
    rw [hnoneL] at hsm
    simp at hsm
  obtain ⟨res, hres⟩ := hres
  have hfb : from_buffer_data ⟨mapping, btimes, frames.map encodeFrame⟩
      = some
        { steps := frames.length,
          agentWidth := maxAgentsFold frames,
          spWidth := (maxPointsBundle frames).toNat,
          times := fun t => btimes.getD t 0,
          n_agents := fun t =>
            ((frames.map fun fr => fr.map decRecOf).getD t []).length,
          viz_types := fun t n =>
            (((frames.map fun fr => fr.map decRecOf).getD t []).map
              DecRecord.viz).getD n 0,
          unique_ids := fun t n =>
            pyInt ((((frames.map fun fr => fr.map decRecOf).getD t []).map
              DecRecord.uid).getD n 0),
          types := res,
          positions := fun t n =>
            (((frames.map fun fr => fr.map decRecOf).getD t []).map
              DecRecord.pos).getD n fun _ => 0,
          rotations := fun t n =>
            (((frames.map fun fr => fr.map decRecOf).getD t []).map
              DecRecord.rot).getD n fun _ => 0,
          radii := fun t n =>
            (((frames.map fun fr => fr.map decRecOf).getD t []).map
              DecRecord.radius).getD n 1,
          n_subpoints := fun t n =>
            (((frames.map fun fr => fr.map decRecOf).getD t []).map
              DecRecord.nsp).getD n 0,
          subpoints := fun t n =>
            (((frames.map fun fr => fr.map decRecOf).getD t []).map
              DecRecord.sp).getD n fun _ _ => 0,
          draw_fiber_points := false,
          type_ids := some fun t n =>
            pyInt ((((frames.map fun fr => fr.map decRecOf).getD t []).map
              DecRecord.tid).getD n 0),
          type_mapping := none } := by
    unfold from_buffer_data
    simp only [hdims, Option.bind_eq_bind, Option.some_bind]
    simp only [hmapM, Option.some_bind]
    simp only [hres, Option.some_bind]
  refine ⟨_, hfb, ?_, ?_, ?_, ?_, ?_, ?_, ?_⟩
  · rfl
  · rfl
  · rfl
  · intro t
    show ((frames.map fun fr => fr.map decRecOf).getD t []).length
      = (frames.getD t []).length
    rw [getD_map_decRecOf]
    simp
  · intro t n hn
    have hlen : ((frames.getD t []).map decRecOf).length ≤ n := by
      simpa using hn
    refine ⟨?_, ?_, ?_, ?_, ?_, ?_, ?_⟩ <;>
      simp only [getD_map_decRecOf] <;>
      rw [getD_map_ge _ _ _ _ hlen] <;>
      simp [pyInt]
  · intro t n hn
    refine ⟨?_, ?_, ?_, ?_, ?_, ?_, ?_⟩ <;>
      simp only [getD_map_decRecOf] <;>
      rw [getD_map_map_lt decRecOf _ _ n _ dummyRec hn] <;> rfl
  · rfl

theorem C6_decode_allocation_and_defaults_witness :
    ∃ ad : AgentData,
      from_buffer_data ⟨[((0 : ℤ), "A")], [0],
          ([[⟨1000, 5, 0, 1, 2, 3, 0, 0, 0, 7, []⟩]] :
            List (List AgentRecord)).map encodeFrame⟩ = some ad
      ∧ ad.steps = 1 ∧ ad.agentWidth = 1 ∧ ad.spWidth = 0
      ∧ ad.n_agents 0 = 1 ∧ ad.radii 0 1 = 1 ∧ ad.type_mapping = none := by
  obtain ⟨ad, h1, h2, h3, h4, h5, h6, h7, h8⟩ :=
    C6_decode_allocation_and_defaults [((0 : ℤ), "A")] [0]
      [[⟨1000, 5, 0, 1, 2, 3, 0, 0, 0, 7, []⟩]]
      (by
        intro fr hfr r hr
        rw [List.mem_singleton] at hfr
        subst hfr
        rw [List.mem_singleton] at hr
        subst hr
        rfl)
      (by
        intro t n ht hn
        have ht0 : t = 0 := by
          simp only [List.length_singleton] at ht
          omega
        have hma : maxAgentsFold
            [[(⟨1000, 5, 0, 1, 2, 3, 0, 0, 0, 7, []⟩ : AgentRecord)]]
            = 1 := rfl
        have hn0 : n = 0 := by
          rw [hma] at hn
          omega
        subst ht0
        subst hn0
        have harg : (((([[(⟨1000, 5, 0, 1, 2, 3, 0, 0, 0, 7, []⟩ :
              AgentRecord)]] : List (List AgentRecord)).getD 0 []).map
              AgentRecord.type_id).getD 0 0) = (((0 : ℕ) : ℚ)) := by
          norm_num
        rw [harg, pyInt_natCast]
        rfl)
  exact ⟨ad, h1, h2, h3, h4, h5 0, (h6 0 1 (Nat.le_refl 1)).1, h8⟩

end Simularium
